import Mathlib

/-!
# RecipeHub: the recipe listing pipeline of `assets/js/recipes.js`

A shallow embedding of the recipe listing page (`getFilteredRecipes`,
`sortRecipes`, `renderRecipes`, `renderPagination` and the event handlers of
`recipes.js`), of the data and the bookmark functions of `assets/js/data.js`,
and of the helpers `truncate`, `slugify`, `escapeHtml`, `validatePassword` and
`renderStars` of `assets/js/utils.js`.

Conventions of the embedding

* JavaScript strings are Lean strings; a string is truthy when it is not `""`.
  Where code units matter (`truncate`) a string is the list of its UTF-16 code
  units.
* `prepTime`, `cookTime` and `reviewCount` are non-negative integers, `id` is an
  integer, `rating` is an exact rational.  For finite numbers the sign of a
  JavaScript subtraction `x - y` is the sign of the exact difference, which is
  all `Array.prototype.sort` looks at.
* The global `state` object and the constant `RECIPES` are passed explicitly.
* The built-in `String.prototype.toLowerCase` is passed to the listing code as
  a parameter (`JsLower`): its Unicode case tables belong to the engine.
-/

namespace RecipeHub

/-! ## Data model -/

/-- The fields of a recipe record of `data.js` that the listing page reads. -/
structure Recipe where
  id : Int
  title : String
  description : String
  category : String
  cuisine : String
  difficulty : String
  dietaryTags : List String
  prepTime : Nat
  cookTime : Nat
  rating : ℚ
  reviewCount : Nat
  deriving DecidableEq

/-- The `state` object of `recipes.js`. -/
structure State where
  query : String
  category : String
  cuisine : String
  difficulty : String
  diet : String
  maxTime : Int
  sort : String
  page : Int
  perPage : Int
  deriving DecidableEq

/-- The initial value of `state` (`recipes.js`, lines 9-19). -/
def initialState : State :=
  { query := "", category := "", cuisine := "", difficulty := "", diet := "",
    maxTime := 180, sort := "newest", page := 1, perPage := 9 }

/-! ## String primitives -/

/-- JavaScript truthiness of a string: every string but the empty one. -/
def truthy (s : String) : Bool := s != ""

/-- The ASCII part of `String.prototype.toLowerCase`, character by character:
the letters `A`-`Z` are mapped to `a`-`z` and every other character is kept.
On ASCII text this is what JavaScript computes; outside ASCII JavaScript also
maps the capitals of other scripts (see `JsLower`). -/
def toLowerCase (s : String) : String := ⟨s.data.map Char.toLower⟩

/-- The built-in `String.prototype.toLowerCase`.  Its Unicode case tables
belong to the JavaScript engine, not to this repository, so the listing code
takes the function as a parameter, together with the two facts used about it:
only the empty string is mapped to the empty string, and on ASCII text the
function is the letter-wise mapping of `A`-`Z` to `a`-`z`. -/
structure JsLower where
  /-- the function `s => s.toLowerCase()` -/
  lower : String → String
  /-- lower-casing never empties a string and keeps the empty string -/
  lower_eq_empty : ∀ s, lower s = "" ↔ s = ""
  /-- on ASCII text only the letters `A`-`Z` change -/
  lower_ascii : ∀ s, (∀ c ∈ s.data, c.toNat < 128) → lower s = toLowerCase s

/-- The lower-casing that changes nothing outside ASCII: one function with
the two facts of `JsLower`, used where a statement is evaluated. -/
def asciiLower : JsLower where
  lower := toLowerCase
  lower_eq_empty := by
    intro s
    cases s with
    | mk l =>
      cases l with
      | nil => simp [toLowerCase]
      | cons c cs =>
        constructor
        · intro h
          have := congrArg String.data h
          simp [toLowerCase] at this
        · intro h
          have := congrArg String.data h
          simp at this
  lower_ascii := fun _ _ => rfl

/-- Model of `String.prototype.includes`: `q` occurs in `s` as a contiguous run. -/
def includes (s q : String) : Bool := decide (q.data <:+: s.data)

/-! ## Filtering (`getFilteredRecipes`) -/

/-- The condition of the first `if` of the filter callback: the lower-cased
query `q` is non-empty and occurs in none of title, description, cuisine. -/
def textReject (L : JsLower) (q : String) (r : Recipe) : Bool :=
  truthy q && !(includes (L.lower r.title) q ||
                includes (L.lower r.description) q ||
                includes (L.lower r.cuisine) q)

/-- The callback handed to `RECIPES.filter`: six guards, each returning
`false` early, then `true`. -/
def filterCallback (L : JsLower) (state : State) (q : String) (r : Recipe) : Bool :=
  if textReject L q r then false
  else if truthy state.category && r.category != state.category then false
  else if truthy state.cuisine && r.cuisine != state.cuisine then false
  else if truthy state.difficulty && r.difficulty != state.difficulty then false
  else if truthy state.diet && !(r.dietaryTags.contains state.diet) then false
  else if decide (((r.prepTime + r.cookTime : Nat) : Int) > state.maxTime) then false
  else true

/-- The function `getFilteredRecipes()` with the globals `RECIPES` and `state`
and the engine's lower-casing as arguments. -/
def getFilteredRecipes (L : JsLower) (RECIPES : List Recipe) (state : State) : List Recipe :=
  let q := L.lower state.query
  RECIPES.filter (filterCallback L state q)

/-! ## Sorting (`sortRecipes`)

`Array.prototype.sort` is modelled as ECMAScript specifies it since ES2019:
it raises `TypeError` when the argument is neither `undefined` nor callable,
it looks only at the sign of the comparator's result (a result that is not a
number counts as `+0`), and it is stable.  For a comparator that is a total
preorder, as all comparators below are, these rules fix the result uniquely;
stable insertion realises it.
-/

/-- The exception a JavaScript call can raise in this code. -/
inductive JsError where
  | typeError
  deriving DecidableEq

/-- The own properties of the object literal `sortFns`, in source order. -/
def sortFns : List (String × (Recipe → Recipe → ℚ)) :=
  [ ("newest",   fun a b => (b.id : ℚ) - (a.id : ℚ)),
    ("oldest",   fun a b => (a.id : ℚ) - (b.id : ℚ)),
    ("rating",   fun a b => b.rating - a.rating),
    ("quickest", fun a b => ((a.prepTime + a.cookTime : Nat) : ℚ) - ((b.prepTime + b.cookTime : Nat) : ℚ)),
    ("popular",  fun a b => (b.reviewCount : ℚ) - (a.reviewCount : ℚ)) ]

/-- The value of a property read `sortFns[key]`, as far as `sort` can tell
values apart. -/
inductive Property where
  /-- no own and no inherited property of that name -/
  | undefined
  /-- one of the five comparators of the literal -/
  | compareFn (f : Recipe → Recipe → ℚ)
  /-- an inherited object that is not callable (`Object.prototype` itself) -/
  | object
  /-- an inherited function whose result is never a number -/
  | notANumberFn
  /-- an inherited method that raises `TypeError` when called without a receiver -/
  | throwingFn

/-- Names of `Object.prototype` methods that raise `TypeError` when called
with `this` undefined, which is how `sort` calls its comparator. -/
def throwingMethods : List String :=
  ["valueOf", "hasOwnProperty", "isPrototypeOf", "propertyIsEnumerable", "toLocaleString",
   "__defineGetter__", "__defineSetter__", "__lookupGetter__", "__lookupSetter__"]

/-- What `sortFns` inherits from `Object.prototype`: the accessor `__proto__`
yields `Object.prototype`; `constructor` (the function `Object`) returns its
first argument and `toString` returns a tag string, neither converts to a
number; the remaining methods need a receiver. -/
def inherited (key : String) : Property :=
  if key = "__proto__" then .object
  else if key = "constructor" ∨ key = "toString" then .notANumberFn
  else if key ∈ throwingMethods then .throwingFn
  else .undefined

/-- A property read `sortFns[key]`: own properties first, then the prototype.
A missing key reads the property named "undefined", which does not exist. -/
def getProperty (key : String) : Property :=
  match sortFns.lookup key with
  | some f => .compareFn f
  | none => inherited key

/-- The expression `sortFns[state.sort] || sortFns.newest`: only `undefined`
is falsy among the values a property read can give here. -/
def comparatorFor (key : String) : Property :=
  match getProperty key with
  | .undefined => getProperty "newest"
  | p => p

/-- The number `sort` works with for the pair `(a, b)` when obtaining it
raises nothing (ECMAScript `SortCompare`): the comparator's result, and `+0`
when there is no comparator (both records convert to the same string) or its
result is not a number. -/
def sortCompare (comparefn : Property) (a b : Recipe) : ℚ :=
  match comparefn with
  | .compareFn f => f a b
  | _ => 0

/-- Stable sort by the sign of `cmp`: `a` stays in front of `b` unless
`cmp a b > 0`. -/
def stableSort {α : Type} (cmp : α → α → ℚ) (l : List α) : List α :=
  l.insertionSort (fun a b => cmp a b ≤ 0)

/-- Model of `Array.prototype.sort(comparefn)` on a list without holes.  A
throwing comparator is reached as soon as there are two elements to compare. -/
def arraySort (comparefn : Property) (l : List Recipe) : Except JsError (List Recipe) :=
  match comparefn with
  | .object => .error .typeError
  | .throwingFn => if l.length < 2 then .ok l else .error .typeError
  | c => .ok (stableSort (sortCompare c) l)

/-- The function `sortRecipes(list)`, reading the global `state`: copy, then sort. -/
def sortRecipes (state : State) (list : List Recipe) : Except JsError (List Recipe) :=
  let sorted := list
  arraySort (comparatorFor state.sort) sorted

/-! ## The shipped data (`data.js`) -/

/-- Element `RECIPES[0]` of `data.js`. -/
def recipe1 : Recipe :=
  { id := 1,
    title := "Dal Bhat Tarkari",
    description := "The heart of Nepali cuisine — lentil soup with steamed rice and seasonal vegetable curry. Comforting, nutritious, and deeply satisfying.",
    category := "Dinner",
    cuisine := "Nepali",
    difficulty := "Beginner",
    dietaryTags := ["Vegetarian", "Gluten-Free"],
    prepTime := 20,
    cookTime := 40,
    rating := 48 / 10,
    reviewCount := 142 }

/-- Element `RECIPES[1]` of `data.js`. -/
def recipe2 : Recipe :=
  { id := 2,
    title := "Spaghetti Carbonara",
    description := "A classic Roman pasta dish made with eggs, Pecorino Romano, guanciale, and black pepper. Silky, rich, and absolutely no cream involved.",
    category := "Dinner",
    cuisine := "Italian",
    difficulty := "Intermediate",
    dietaryTags := [],
    prepTime := 15,
    cookTime := 25,
    rating := 47 / 10,
    reviewCount := 218 }

/-- Element `RECIPES[2]` of `data.js`. -/
def recipe3 : Recipe :=
  { id := 3,
    title := "Vegan Buddha Bowl",
    description := "A nourishing bowl packed with roasted sweet potato, chickpeas, quinoa, avocado, and a punchy tahini lemon dressing.",
    category := "Lunch",
    cuisine := "American",
    difficulty := "Beginner",
    dietaryTags := ["Vegan", "Gluten-Free"],
    prepTime := 15,
    cookTime := 25,
    rating := 45 / 10,
    reviewCount := 97 }

/-- Element `RECIPES[3]` of `data.js`. -/
def recipe4 : Recipe :=
  { id := 4,
    title := "Chicken Momo",
    description := "Nepal's beloved street food — juicy steamed dumplings filled with seasoned minced chicken, served with a fiery tomato achaar.",
    category := "Dinner",
    cuisine := "Nepali",
    difficulty := "Advanced",
    dietaryTags := [],
    prepTime := 60,
    cookTime := 20,
    rating := 49 / 10,
    reviewCount := 304 }

/-- Element `RECIPES[4]` of `data.js`. -/
def recipe5 : Recipe :=
  { id := 5,
    title := "Chocolate Lava Cake",
    description := "Decadent individual chocolate cakes with a warm, gooey molten center. Ready in under 30 minutes and guaranteed to impress.",
    category := "Dessert",
    cuisine := "French",
    difficulty := "Intermediate",
    dietaryTags := ["Vegetarian"],
    prepTime := 10,
    cookTime := 12,
    rating := 46 / 10,
    reviewCount := 163 }

/-- Element `RECIPES[5]` of `data.js`. -/
def recipe6 : Recipe :=
  { id := 6,
    title := "Masala Chai",
    description := "Aromatic spiced milk tea with cardamom, ginger, cinnamon, and cloves. The soul of every Nepali morning.",
    category := "Drinks",
    cuisine := "Nepali",
    difficulty := "Beginner",
    dietaryTags := ["Vegetarian", "Gluten-Free"],
    prepTime := 5,
    cookTime := 10,
    rating := 47 / 10,
    reviewCount := 88 }

/-- Element `RECIPES[6]` of `data.js`. -/
def recipe7 : Recipe :=
  { id := 7,
    title := "Avocado Toast",
    description := "Creamy smashed avocado on toasted sourdough with chili flakes, lime, and a perfect runny poached egg on top.",
    category := "Breakfast",
    cuisine := "American",
    difficulty := "Beginner",
    dietaryTags := ["Vegetarian"],
    prepTime := 5,
    cookTime := 8,
    rating := 43 / 10,
    reviewCount := 54 }

/-- Element `RECIPES[7]` of `data.js`. -/
def recipe8 : Recipe :=
  { id := 8,
    title := "Pad Thai",
    description := "Thailand's iconic stir-fried noodle dish with rice noodles, egg, tofu, bean sprouts, and a tangy tamarind sauce.",
    category := "Dinner",
    cuisine := "Thai",
    difficulty := "Intermediate",
    dietaryTags := ["Vegetarian"],
    prepTime := 20,
    cookTime := 15,
    rating := 45 / 10,
    reviewCount := 121 }

/-- The constant `RECIPES` of `data.js`, in source order. -/
def RECIPES : List Recipe :=
  [recipe1, recipe2, recipe3, recipe4, recipe5, recipe6, recipe7, recipe8]

/-! ## Rendering and pagination (`renderRecipes`, `renderPagination`)

Page numbers and page sizes are integers.  `Array.prototype.slice` follows
ECMAScript: a negative index counts from the end of the array, both indices
are clamped to `[0, length]`, and an empty range gives the empty array.
-/

/-- Model of `Array.prototype.slice(start, end)` with integer arguments. -/
def jsSlice {α : Type} (l : List α) (start stop : Int) : List α :=
  let len : Int := l.length
  let k := if start < 0 then max (len + start) 0 else min start len
  let final := if stop < 0 then max (len + stop) 0 else min stop len
  (l.drop k.toNat).take (final - k).toNat

/-- The page of `renderRecipes`: `filtered.slice(start, start + perPage)` with
`start = (page - 1) * perPage`. -/
def pageSlice {α : Type} (filtered : List α) (page perPage : Int) : List α :=
  let start := (page - 1) * perPage
  jsSlice filtered start (start + perPage)

/-- What `renderRecipes` computes before it writes to the page. -/
structure Rendered where
  total : Nat
  paged : List Recipe

/-- The computing part of `renderRecipes()`: filter, sort, count, slice.  An
exception of `sortRecipes` propagates. -/
def renderRecipes (L : JsLower) (RECIPES : List Recipe) (state : State) :
    Except JsError Rendered :=
  match sortRecipes state (getFilteredRecipes L RECIPES state) with
  | .error e => .error e
  | .ok filtered =>
    let total := filtered.length
    .ok { total := total, paged := pageSlice filtered state.page state.perPage }

/-- The variable `pages` of `renderPagination(total)`:
`Math.ceil(total / state.perPage)`, with exact division.  Meaningful for
`perPage ≠ 0`; JavaScript divides by zero to `Infinity` or `NaN`. -/
def pageCount (total : Nat) (perPage : Int) : Int :=
  ⌈(total : ℚ) / (perPage : ℚ)⌉

/-- Whether `renderPagination(total)` renders any control: it empties the
container and returns when `pages <= 1`. -/
def paginationRendered (total : Nat) (perPage : Int) : Bool :=
  !decide (pageCount total perPage ≤ 1)

/-! ### Arrays by reference

`sortRecipes` copies its argument with `slice()` and sorts the copy in place.
To speak about the argument after the call, arrays live in a heap and are
passed by reference.
-/

/-- The arrays alive in the program; a reference is an index into the heap. -/
abbrev Heap := List (List Recipe)

/-- Model of `arr.slice()` on the heap: allocate a copy, return its reference. -/
def heapSlice (h : Heap) (arr : Nat) : Heap × Nat :=
  (h ++ [h.getD arr []], h.length)

/-- Model of `arr.sort(comparefn)` on the heap: the array is sorted in place
and the same reference is returned. -/
def heapSort (comparefn : Property) (h : Heap) (arr : Nat) : Except JsError (Heap × Nat) :=
  match arraySort comparefn (h.getD arr []) with
  | .error e => .error e
  | .ok out => .ok (h.set arr out, arr)

/-- The function `sortRecipes(list)` on the heap: `list.slice()`, then
`sorted.sort(...)`. -/
def sortRecipesRef (state : State) (h : Heap) (list : Nat) : Except JsError (Heap × Nat) :=
  let copied := heapSlice h list
  heapSort (comparatorFor state.sort) copied.1 copied.2

/-! ## Event handlers that change the query

Each handler is a transition on `state`; the value read from the page is an
argument.
-/

/-- The filters set through `state[key]`: the `data-filter` names. -/
inductive FilterKey where
  | category | cuisine | difficulty | diet
  deriving DecidableEq

/-- The assignment `state[key] = v` for a filter key. -/
def setFilter (s : State) (key : FilterKey) (v : String) : State :=
  match key with
  | .category => { s with category := v }
  | .cuisine => { s with cuisine := v }
  | .difficulty => { s with difficulty := v }
  | .diet => { s with diet := v }

/-- The `data-key` of an active filter tag (`updateActiveFilterTags`): one of
the four filters, or `maxTime`. -/
inductive TagKey where
  | filter (key : FilterKey)
  | maxTime
  deriving DecidableEq

/-- The white space of JavaScript, which `trim` removes and the regular
expression class `\s` matches: tab, line feed, vertical tab, form feed,
carriage return, space, no-break space, the Unicode space separators, the line
and paragraph separators and the byte order mark. -/
def isJsSpace (c : Char) : Bool :=
  let n := c.toNat
  (decide (9 ≤ n) && decide (n ≤ 13)) || n == 32 || n == 160 || n == 5760 ||
    (decide (8192 ≤ n) && decide (n ≤ 8202)) || n == 8232 || n == 8233 || n == 8239 ||
    n == 8287 || n == 12288 || n == 65279

/-- Model of `String.prototype.trim`: the white space at the start and at the
end is removed. -/
def jsTrim (s : String) : String :=
  ⟨((s.data.dropWhile isJsSpace).reverse.dropWhile isJsSpace).reverse⟩

/-- The user actions of `recipes.js` that change a filter, the time bound,
the search term or the sort key. -/
inductive QueryEvent where
  /-- click on `#clear-cat-btn` (`renderBanner`) -/
  | clearCategory
  /-- change of a `[data-filter]` input with value `val` -/
  | filterChange (key : FilterKey) (val : String) (isRadioOrCheckbox checked : Bool)
  /-- input on `#time-slider` with numeric value `val` -/
  | timeSlider (val : Int)
  /-- click on `#clear-all-filters` -/
  | clearAll
  /-- click on an `.active-filter-tag` -/
  | removeTag (key : TagKey)
  /-- debounced input on `#recipes-search-input` holding `val` -/
  | search (val : String)
  /-- click on `#search-clear-btn` -/
  | searchClear
  /-- change of `#sort-select` to `val` -/
  | sortChange (val : String)

/-- The state after a handler has run.  Removing the `maxTime` tag stores the
empty string in `state.maxTime`, which every numeric comparison reads as `0`. -/
def handle (s : State) : QueryEvent → State
  | .clearCategory => { s with category := "", page := 1 }
  | .filterChange key val isRadioOrCheckbox checked =>
    let s1 := if isRadioOrCheckbox then setFilter s key (if checked then val else "") else s
    { s1 with page := 1 }
  | .timeSlider val => { s with maxTime := val, page := 1 }
  | .clearAll =>
    { s with query := "", category := "", cuisine := "", difficulty := "", diet := "",
             maxTime := 180, page := 1 }
  | .removeTag (.filter key) => { setFilter s key "" with page := 1 }
  | .removeTag .maxTime => { s with maxTime := 0, page := 1 }
  | .search val => { s with query := jsTrim val, page := 1 }
  | .searchClear => { s with query := "", page := 1 }
  | .sortChange val => { s with sort := val, page := 1 }

/-! ## Helpers of `utils.js` -/

/-- Model of `str.length`: the number of UTF-16 code units, two for a
character outside the basic plane. -/
def jsLength (s : String) : Nat :=
  (s.data.map (fun c => if c.val < 0x10000 then 1 else 2)).sum

/-- The test `/[A-Z]/.test(s)`. -/
def hasUppercase (s : String) : Bool :=
  s.data.any (fun c => decide ('A' ≤ c) && decide (c ≤ 'Z'))

/-- The test `/[0-9]/.test(s)`. -/
def hasDigit (s : String) : Bool :=
  s.data.any (fun c => decide ('0' ≤ c) && decide (c ≤ '9'))

/-- The object returned by `validatePassword`. -/
structure PasswordResult where
  valid : Bool
  message : String
  deriving DecidableEq

/-- The function `validatePassword(password)`; `none` stands for a missing
value (`null` or `undefined`), which `!password` catches before `.length` is
read. -/
def validatePassword (password : Option String) : PasswordResult :=
  match password with
  | none => { valid := false, message := "Password must be at least 8 characters." }
  | some p =>
    if !truthy p || decide (jsLength p < 8) then
      { valid := false, message := "Password must be at least 8 characters." }
    else if !hasUppercase p then
      { valid := false, message := "Password must contain at least one uppercase letter." }
    else if !hasDigit p then
      { valid := false, message := "Password must contain at least one number." }
    else
      { valid := true, message := "" }

/-- The double quote character. -/
def quoteChar : Char := Char.ofNat 34

/-- The apostrophe character. -/
def aposChar : Char := Char.ofNat 39

/-- The character class `[&<>"']` of `escapeHtml`. -/
def isHtmlSpecial (c : Char) : Bool :=
  c == '&' || c == '<' || c == '>' || c == quoteChar || c == aposChar

/-- The object `map` of `escapeHtml`, read at a one-character key; `none` is
`undefined`. -/
def escapeMap (m : Char) : Option String :=
  if m = '&' then some "&amp;"
  else if m = '<' then some "&lt;"
  else if m = '>' then some "&gt;"
  else if m = quoteChar then some "&quot;"
  else if m = aposChar then some "&#039;"
  else none

/-- The replacement `m => map[m]`, as the text `replace` inserts: `undefined`
is inserted as the word "undefined". -/
def escapeReplacement (m : Char) : List Char :=
  match escapeMap m with
  | some e => e.data
  | none => "undefined".data

/-- The function `escapeHtml(str)`: the empty string for a falsy argument,
otherwise every match of the character class replaced through `map`. -/
def escapeHtml (str : String) : String :=
  if !truthy str then ""
  else ⟨str.data.flatMap (fun c => if isHtmlSpecial c then escapeReplacement c else [c])⟩

/-- The five entities `escapeHtml` writes. -/
def htmlEntities : List String := ["&amp;", "&lt;", "&gt;", "&quot;", "&#039;"]

/-! ### Strings by code unit (`truncate`)

`length` and `slice` count UTF-16 code units and `slice` may cut between the
two halves of a surrogate pair, so `truncate` works on the code units.
-/

/-- A JavaScript string as the list of its UTF-16 code units. -/
abbrev JsString := List Nat

/-- The code units of one character: itself in the basic plane, otherwise a
high and a low surrogate. -/
def utf16Char (c : Char) : List Nat :=
  if c.toNat < 65536 then [c.toNat]
  else [55296 + (c.toNat - 65536) / 1024, 56320 + (c.toNat - 65536) % 1024]

/-- The code units of a string. -/
def utf16 (s : String) : JsString := s.data.flatMap utf16Char

/-- The function `truncate(str, maxLen)`; the default `maxLen = 100` is left to
the caller.  `String.prototype.slice` treats its indices as
`Array.prototype.slice` does. -/
def truncate (str : JsString) (maxLen : Int) : JsString :=
  if str.isEmpty || decide ((str.length : Int) ≤ maxLen) then str
  else jsSlice str 0 (maxLen - 3) ++ utf16 "..."

/-! ### Slugs (`slugify`) -/

/-- The regular expression class `\w`: ASCII letters, digits and `_`. -/
def isWordChar (c : Char) : Bool :=
  (decide ('a' ≤ c) && decide (c ≤ 'z')) || (decide ('A' ≤ c) && decide (c ≤ 'Z')) ||
    (decide ('0' ≤ c) && decide (c ≤ '9')) || c == '_'

/-- The regular expression class `[\s_-]`. -/
def isSlugSeparator (c : Char) : Bool :=
  isJsSpace c || c == '_' || c == '-'

/-- The replacement `replace(/[\s_-]+/g, '-')`: every maximal run of
separators becomes one hyphen.  `inRun` says that the character before was a
separator, so the run has its hyphen already. -/
def collapseSeparators (inRun : Bool) : List Char → List Char
  | [] => []
  | c :: cs =>
    if isSlugSeparator c then
      if inRun then collapseSeparators true cs else '-' :: collapseSeparators true cs
    else c :: collapseSeparators false cs

/-- The replacement `replace(/^-+|-+$/g, '')`: the hyphens at the start and
the hyphens at the end are removed. -/
def stripHyphens (l : List Char) : List Char :=
  (l.dropWhile (fun c => c == '-')).rdropWhile (fun c => c == '-')

/-- The function `slugify(str)`: lower-case, trim, drop what is neither a word
character, white space nor a hyphen, collapse separators, strip hyphens.
Lower-casing is the letter-wise `toLowerCase`, which is what JavaScript
computes on ASCII text. -/
def slugify (str : String) : String :=
  let lowered := toLowerCase str
  let trimmed := jsTrim lowered
  let kept := trimmed.data.filter (fun c => isWordChar c || isJsSpace c || c == '-')
  let hyphenated := collapseSeparators false kept
  ⟨stripHyphens hyphenated⟩

/-! ### Star ratings (`renderStars`)

The two copies of `renderStars` (`utils.js`, `data.js`) choose the class of a
star in the same way; the markup around the class is not modelled.
-/

/-- The class of one star: `filled`, `half`, or none. -/
inductive StarClass where
  | filled | half | empty
  deriving DecidableEq, Repr

/-- The class the loop body gives star `i`: `filled` when
`i <= Math.floor(rating)`, else `half` when `i - 0.5 <= rating`, else none. -/
def starClass (rating : ℚ) (i : Int) : StarClass :=
  if i ≤ ⌊rating⌋ then .filled
  else if (i : ℚ) - 1 / 2 ≤ rating then .half
  else .empty

/-- The stars of `renderStars(rating)`: for `i = 1, ..., 5` the `data-value`
and the class. -/
def renderStars (rating : ℚ) : List (Int × StarClass) :=
  (List.range 5).map (fun (k : Nat) => ((k : Int) + 1, starClass rating ((k : Int) + 1)))

/-! ### Bookmarks (`getBookmarks`, `toggleBookmark`)

The value stored under `rh_bookmarks` is the state: absent, or a JSON array of
integer ids, which `JSON.stringify` and `JSON.parse` carry unchanged.
-/

/-- The value of `localStorage.getItem('rh_bookmarks')`: `none` for `null`,
otherwise the array the stored text denotes. -/
abbrev BookmarkStore := Option (List Int)

/-- The elements of `new Set(array)` in insertion order: each value once, at
its first occurrence. -/
def toSet (l : List Int) : List Int :=
  l.reverse.dedup.reverse

/-- The function `getBookmarks()`: the empty set when nothing is stored. -/
def getBookmarks (store : BookmarkStore) : List Int :=
  match store with
  | none => []
  | some ids => toSet ids

/-- The function `toggleBookmark(recipeId)`: the value returned and the store
after the call. -/
def toggleBookmark (store : BookmarkStore) (recipeId : Int) : Bool × BookmarkStore :=
  let bookmarks := getBookmarks store
  let id := recipeId
  let bookmarks := if id ∈ bookmarks then bookmarks.erase id else bookmarks ++ [id]
  (decide (id ∈ bookmarks), some bookmarks)

/-! ### Pagination controls (`renderPagination`) -/

/-- What the page-number loop writes: a page button or an ellipsis. -/
inductive PageItem where
  | button (i : Int) (active : Bool)
  | dots
  deriving DecidableEq, Repr

/-- The body of the page-number loop for one `i`. -/
def pageLoopBody (pages page i : Int) : List PageItem :=
  if pages > 7 ∧ i > 2 ∧ i < pages - 1 ∧ |i - page| > 1 then
    if i = 3 ∨ i = pages - 2 then [.dots] else []
  else [.button i (decide (i = page))]

/-- The loop `for (var i = 1; i <= pages; i++)` of `renderPagination`, with
`page` the value of `state.page`. -/
def pageLoop (pages page : Int) : List PageItem :=
  (List.range pages.toNat).flatMap (fun (k : Nat) => pageLoopBody pages page ((k : Int) + 1))

/-- A click on one of the pagination controls. -/
inductive PageEvent where
  /-- click on the button with `data-page` equal to `i` -/
  | pageButton (i : Int)
  /-- click on `#pg-prev` -/
  | prev
  /-- click on `#pg-next` -/
  | next
  deriving DecidableEq

/-- The click handlers bound by `renderPagination`; `pages` is the value the
handlers close over. -/
def handlePage (pages : Int) (s : State) : PageEvent → State
  | .pageButton i => { s with page := i }
  | .prev => if s.page > 1 then { s with page := s.page - 1 } else s
  | .next => if s.page < pages then { s with page := s.page + 1 } else s

/-- The event is a click on a control that `renderPagination` has rendered
for the current state: a page button exists for the numbers the loop writes. -/
def rendered (pages : Int) (s : State) : PageEvent → Prop
  | .pageButton i => ∃ active, PageItem.button i active ∈ pageLoop pages s.page
  | .prev => True
  | .next => True

/-- The state `t` is reached from `s` by the clicks `es`, each on a control
rendered for the state it meets. -/
def clicks (pages : Int) : State → List PageEvent → State → Prop
  | s, [], t => t = s
  | s, e :: es, t => rendered pages s e ∧ clicks pages (handlePage pages s e) es t

/-! ## Sample records used in evaluations -/

/-- A well-formed recipe record that is not part of the shipped data and
takes more than three hours in total (30 + 240 minutes). -/
def longRecipe : Recipe :=
  { id := 9,
    title := "Slow Roast",
    description := "A shoulder of lamb left in a low oven for the afternoon.",
    category := "Dinner",
    cuisine := "British",
    difficulty := "Beginner",
    dietaryTags := [],
    prepTime := 30,
    cookTime := 240,
    rating := 4,
    reviewCount := 12 }

/-! ## Auxiliary facts -/

theorem toLowerCase_eq_empty (s : String) : toLowerCase s = "" ↔ s = "" := by
  cases s with
  | mk l =>
    cases l with
    | nil => simp [toLowerCase]
    | cons c cs =>
      constructor
      · intro h
        have := congrArg String.data h
        simp [toLowerCase] at this
      · intro h
        have := congrArg String.data h
        simp at this

theorem truthy_iff (s : String) : truthy s = true ↔ s ≠ "" := by
  simp [truthy]

theorem includes_iff (s q : String) : includes s q = true ↔ q.data <:+: s.data := by
  simp [includes]

theorem filterCallback_iff (L : JsLower) (state : State) (q : String) (r : Recipe) :
    filterCallback L state q r = true ↔
      (q = "" ∨ q.data <:+: (L.lower r.title).data ∨
        q.data <:+: (L.lower r.description).data ∨
        q.data <:+: (L.lower r.cuisine).data) ∧
      (state.category = "" ∨ r.category = state.category) ∧
      (state.cuisine = "" ∨ r.cuisine = state.cuisine) ∧
      (state.difficulty = "" ∨ r.difficulty = state.difficulty) ∧
      (state.diet = "" ∨ state.diet ∈ r.dietaryTags) ∧
      ((r.prepTime + r.cookTime : Nat) : Int) ≤ state.maxTime := by
  unfold filterCallback textReject
  simp only [truthy, includes]
  by_cases h1 : q = "" <;> by_cases h2 : state.category = "" <;>
    by_cases h3 : state.cuisine = "" <;> by_cases h4 : state.difficulty = "" <;>
    by_cases h5 : state.diet = "" <;>
    simp [h1, h2, h3, h4, h5] <;> tauto

/-! ## Filtering -/

/-- C1: a recipe is in the result of `getFilteredRecipes` exactly when it is in
the collection and all six predicates hold: text match (empty query, or the
lower-cased query occurs in the lower-cased title, description or cuisine),
category, cuisine, difficulty, dietary tag membership, and the inclusive bound
`prepTime + cookTime <= maxTime`.  Lower-casing is the engine's
`toLowerCase`, whatever it does outside ASCII. -/
theorem getFilteredRecipes_mem_iff (L : JsLower) (RECIPES : List Recipe) (state : State)
    (r : Recipe) :
    r ∈ getFilteredRecipes L RECIPES state ↔
      r ∈ RECIPES ∧
      (state.query = "" ∨
        (L.lower state.query).data <:+: (L.lower r.title).data ∨
        (L.lower state.query).data <:+: (L.lower r.description).data ∨
        (L.lower state.query).data <:+: (L.lower r.cuisine).data) ∧
      (state.category = "" ∨ r.category = state.category) ∧
      (state.cuisine = "" ∨ r.cuisine = state.cuisine) ∧
      (state.difficulty = "" ∨ r.difficulty = state.difficulty) ∧
      (state.diet = "" ∨ state.diet ∈ r.dietaryTags) ∧
      ((r.prepTime + r.cookTime : Nat) : Int) ≤ state.maxTime := by
  unfold getFilteredRecipes
  rw [List.mem_filter, filterCallback_iff, L.lower_eq_empty]

/-- C2: the list returned by `getFilteredRecipes` is a sublist of the
collection: only recipes of the collection, none more often than there, in
the collection's order. -/
theorem getFilteredRecipes_sublist (L : JsLower) (RECIPES : List Recipe) (state : State) :
    (getFilteredRecipes L RECIPES state).Sublist RECIPES := by
  unfold getFilteredRecipes
  exact List.filter_sublist _

theorem filter_sublist_of_imp {α : Type} (l : List α) (p q : α → Bool)
    (h : ∀ a, p a = true → q a = true) : (l.filter p).Sublist (l.filter q) :=
  List.monotone_filter_right l (fun a ha => h a ha)

theorem toLowerCase_eq_of_forall₂ (q q' : String)
    (h : List.Forall₂ (fun c d => Char.toLower c = Char.toLower d) q.data q'.data) :
    toLowerCase q = toLowerCase q' := by
  have aux : ∀ l l' : List Char,
      List.Forall₂ (fun c d => Char.toLower c = Char.toLower d) l l' →
      l.map Char.toLower = l'.map Char.toLower := by
    intro l l' hl
    induction hl with
    | nil => rfl
    | cons hcd _ ih => simp [List.map, hcd, ih]
  unfold toLowerCase
  rw [aux q.data q'.data h]

theorem getFilteredRecipes_query_congr (L : JsLower) (RECIPES : List Recipe) (state : State)
    (q q' : String) (h : L.lower q' = L.lower q) :
    getFilteredRecipes L RECIPES { state with query := q' } =
      getFilteredRecipes L RECIPES { state with query := q } := by
  unfold getFilteredRecipes
  show List.filter (filterCallback L { state with query := q' } (L.lower q')) RECIPES =
    List.filter (filterCallback L { state with query := q } (L.lower q)) RECIPES
  rw [h]
  rfl

set_option maxRecDepth 100000 in
theorem recipe2_description_ascii : ∀ c ∈ recipe2.description.data, c.toNat < 128 := by
  decide

set_option maxRecDepth 100000 in
theorem recipe2_description_pasta :
    includes (toLowerCase recipe2.description) "pasta" = true := by
  decide

theorem recipe2_matches_pasta (L : JsLower) (q : String) (hq : L.lower q = "pasta") :
    recipe2 ∈ getFilteredRecipes L RECIPES { initialState with query := q } := by
  have hd : L.lower recipe2.description = toLowerCase recipe2.description :=
    L.lower_ascii _ recipe2_description_ascii
  have ht : ((recipe2.prepTime + recipe2.cookTime : Nat) : Int) ≤ initialState.maxTime := by
    decide
  rw [getFilteredRecipes_mem_iff]
  refine ⟨by simp [RECIPES], ?_, Or.inl rfl, Or.inl rfl, Or.inl rfl, Or.inl rfl, ht⟩
  right
  right
  left
  show (L.lower q).data <:+: (L.lower recipe2.description).data
  rw [hq, hd]
  exact (includes_iff _ _).1 recipe2_description_pasta

/-- C3: the text match of `getFilteredRecipes` is case-insensitive and covers
title, description and cuisine.  Two queries with the same lower-cased form
(`q'` spells `q` with other letter cases) give the same filtered list, in
particular two ASCII queries that agree letter by letter up to case; a recipe
of the collection whose lower-cased title, description or cuisine contains the
lower-cased query is in the result when the other five predicates hold; and
with the query "pasta", or "PASTA", and the initial state otherwise,
"Spaghetti Carbonara", whose description contains "pasta dish", is in the
filtered shipped data. -/
theorem textMatch_case_insensitive (L : JsLower) (RECIPES' : List Recipe) (state : State)
    (r : Recipe) (q q' : String) (h : L.lower q' = L.lower q) :
    getFilteredRecipes L RECIPES' { state with query := q' } =
      getFilteredRecipes L RECIPES' { state with query := q } ∧
    (∀ a a' : String, (∀ c ∈ a.data, c.toNat < 128) → (∀ c ∈ a'.data, c.toNat < 128) →
      List.Forall₂ (fun c d => Char.toLower c = Char.toLower d) a.data a'.data →
      getFilteredRecipes L RECIPES' { state with query := a' } =
        getFilteredRecipes L RECIPES' { state with query := a }) ∧
    (r ∈ RECIPES' →
      (includes (L.lower r.title) (L.lower q) = true ∨
        includes (L.lower r.description) (L.lower q) = true ∨
        includes (L.lower r.cuisine) (L.lower q) = true) →
      (state.category = "" ∨ r.category = state.category) →
      (state.cuisine = "" ∨ r.cuisine = state.cuisine) →
      (state.difficulty = "" ∨ r.difficulty = state.difficulty) →
      (state.diet = "" ∨ state.diet ∈ r.dietaryTags) →
      ((r.prepTime + r.cookTime : Nat) : Int) ≤ state.maxTime →
      r ∈ getFilteredRecipes L RECIPES' { state with query := q } ∧
        r ∈ getFilteredRecipes L RECIPES' { state with query := q' }) ∧
    (recipe2.title = "Spaghetti Carbonara" ∧
      includes recipe2.description "pasta dish" = true ∧
      recipe2 ∈ getFilteredRecipes L RECIPES { initialState with query := "pasta" } ∧
      recipe2 ∈ getFilteredRecipes L RECIPES { initialState with query := "PASTA" }) := by
  have hcongr := getFilteredRecipes_query_congr L RECIPES' state q q' h
  refine ⟨hcongr, ?_, ?_, rfl, by decide, ?_, ?_⟩
  · intro a a' ha ha' hspell
    apply getFilteredRecipes_query_congr
    rw [L.lower_ascii a ha, L.lower_ascii a' ha', toLowerCase_eq_of_forall₂ a a' hspell]
  · intro hr hin hcat hcui hdif hdiet htime
    have hq : r ∈ getFilteredRecipes L RECIPES' { state with query := q } := by
      rw [getFilteredRecipes_mem_iff]
      refine ⟨hr, Or.inr ?_, hcat, hcui, hdif, hdiet, htime⟩
      rcases hin with h1 | h1 | h1
      · exact Or.inl ((includes_iff _ _).1 h1)
      · exact Or.inr (Or.inl ((includes_iff _ _).1 h1))
      · exact Or.inr (Or.inr ((includes_iff _ _).1 h1))
    exact ⟨hq, by rw [hcongr]; exact hq⟩
  · exact recipe2_matches_pasta L "pasta" (by rw [L.lower_ascii _ (by decide)]; decide)
  · exact recipe2_matches_pasta L "PASTA" (by rw [L.lower_ascii _ (by decide)]; decide)

/-- Witness for C3 on the shipped data: the spellings "PASTA" and "pasta"
have the same lower-cased form and give the same filtered list. -/
theorem textMatch_case_insensitive_witness :
    asciiLower.lower "PASTA" = asciiLower.lower "pasta" ∧
    getFilteredRecipes asciiLower RECIPES { initialState with query := "PASTA" } =
      getFilteredRecipes asciiLower RECIPES { initialState with query := "pasta" } :=
  ⟨by decide,
    (textMatch_case_insensitive asciiLower RECIPES initialState recipe2 "pasta" "PASTA"
      (by decide)).1⟩

/-- C4: filter monotonicity.  When one of query, category, cuisine,
difficulty, diet is unset, setting it to any value `v` and leaving the other
fields alone gives a sublist of the previous filtered list, so the total count
does not grow. -/
theorem getFilteredRecipes_monotone (L : JsLower) (RECIPES : List Recipe) (state : State)
    (v : String) :
    (state.query = "" →
      (getFilteredRecipes L RECIPES { state with query := v }).Sublist
          (getFilteredRecipes L RECIPES state) ∧
        (getFilteredRecipes L RECIPES { state with query := v }).length ≤
          (getFilteredRecipes L RECIPES state).length) ∧
    (state.category = "" →
      (getFilteredRecipes L RECIPES { state with category := v }).Sublist
          (getFilteredRecipes L RECIPES state) ∧
        (getFilteredRecipes L RECIPES { state with category := v }).length ≤
          (getFilteredRecipes L RECIPES state).length) ∧
    (state.cuisine = "" →
      (getFilteredRecipes L RECIPES { state with cuisine := v }).Sublist
          (getFilteredRecipes L RECIPES state) ∧
        (getFilteredRecipes L RECIPES { state with cuisine := v }).length ≤
          (getFilteredRecipes L RECIPES state).length) ∧
    (state.difficulty = "" →
      (getFilteredRecipes L RECIPES { state with difficulty := v }).Sublist
          (getFilteredRecipes L RECIPES state) ∧
        (getFilteredRecipes L RECIPES { state with difficulty := v }).length ≤
          (getFilteredRecipes L RECIPES state).length) ∧
    (state.diet = "" →
      (getFilteredRecipes L RECIPES { state with diet := v }).Sublist
          (getFilteredRecipes L RECIPES state) ∧
        (getFilteredRecipes L RECIPES { state with diet := v }).length ≤
          (getFilteredRecipes L RECIPES state).length) := by
  have key : ∀ s' : State,
      (∀ r, filterCallback L s' (L.lower s'.query) r = true →
        filterCallback L state (L.lower state.query) r = true) →
      (getFilteredRecipes L RECIPES s').Sublist (getFilteredRecipes L RECIPES state) ∧
        (getFilteredRecipes L RECIPES s').length ≤
          (getFilteredRecipes L RECIPES state).length := by
    intro s' hs'
    have hsub : (getFilteredRecipes L RECIPES s').Sublist (getFilteredRecipes L RECIPES state) :=
      filter_sublist_of_imp RECIPES _ _ hs'
    exact ⟨hsub, hsub.length_le⟩
  refine ⟨?_, ?_, ?_, ?_, ?_⟩
  · intro h0
    apply key
    intro r hr
    rw [filterCallback_iff] at hr ⊢
    rw [L.lower_eq_empty, h0]
    exact ⟨Or.inl rfl, hr.2⟩
  · intro h0
    apply key
    intro r hr
    rw [filterCallback_iff] at hr ⊢
    exact ⟨hr.1, Or.inl h0, hr.2.2⟩
  · intro h0
    apply key
    intro r hr
    rw [filterCallback_iff] at hr ⊢
    exact ⟨hr.1, hr.2.1, Or.inl h0, hr.2.2.2⟩
  · intro h0
    apply key
    intro r hr
    rw [filterCallback_iff] at hr ⊢
    exact ⟨hr.1, hr.2.1, hr.2.2.1, Or.inl h0, hr.2.2.2.2⟩
  · intro h0
    apply key
    intro r hr
    rw [filterCallback_iff] at hr ⊢
    exact ⟨hr.1, hr.2.1, hr.2.2.1, hr.2.2.2.1, Or.inl h0, hr.2.2.2.2.2⟩

/-- Witness for C4 on the shipped data: from the initial state, selecting the
category "Dinner" gives a sublist of the unfiltered listing. -/
theorem getFilteredRecipes_monotone_witness :
    (getFilteredRecipes asciiLower RECIPES { initialState with category := "Dinner" }).Sublist
      (getFilteredRecipes asciiLower RECIPES initialState) :=
  ((getFilteredRecipes_monotone asciiLower RECIPES initialState "Dinner").2.1 rfl).1

theorem lower_initial_query (L : JsLower) : L.lower initialState.query = "" :=
  (L.lower_eq_empty _).2 rfl

/-- C5: evaluation at the default bound.  With `maxTime` at its initial value
180 the time guard still rejects a recipe of 30 + 240 minutes, so the listing
of a collection holding only that recipe is empty. -/
theorem default_maxTime_rejects_long_recipe (L : JsLower) :
    initialState.maxTime = 180 ∧
    filterCallback L initialState (L.lower initialState.query) longRecipe = false ∧
    getFilteredRecipes L [longRecipe] initialState = [] := by
  have h : filterCallback L initialState (L.lower initialState.query) longRecipe = false := by
    rw [lower_initial_query]
    rfl
  refine ⟨rfl, h, ?_⟩
  simp [getFilteredRecipes, List.filter, h]

/-! ## Sorting -/

theorem comparatorFor_newest :
    comparatorFor "newest" = .compareFn (fun a b => (b.id : ℚ) - (a.id : ℚ)) := by
  rfl

theorem comparatorFor_oldest :
    comparatorFor "oldest" = .compareFn (fun a b => (a.id : ℚ) - (b.id : ℚ)) := by
  rfl

theorem comparatorFor_rating :
    comparatorFor "rating" = .compareFn (fun a b => b.rating - a.rating) := by
  rfl

theorem comparatorFor_quickest :
    comparatorFor "quickest" = .compareFn (fun a b =>
      ((a.prepTime + a.cookTime : Nat) : ℚ) - ((b.prepTime + b.cookTime : Nat) : ℚ)) := by
  rfl

theorem comparatorFor_popular :
    comparatorFor "popular" = .compareFn (fun a b => (b.reviewCount : ℚ) - (a.reviewCount : ℚ)) := by
  rfl

theorem comparatorFor_highest_rated :
    comparatorFor "highest-rated" = comparatorFor "newest" := by
  rfl

theorem stableSort_pairwise {α : Type} (cmp : α → α → ℚ) (R : α → α → Prop)
    (hR : ∀ a b, cmp a b ≤ 0 ↔ R a b) (htot : ∀ a b, R a b ∨ R b a)
    (htrans : ∀ a b c, R a b → R b c → R a c) (l : List α) :
    (stableSort cmp l).Pairwise R := by
  haveI : IsTotal α (fun a b => cmp a b ≤ 0) :=
    ⟨fun a b => by simpa [hR] using htot a b⟩
  haveI : IsTrans α (fun a b => cmp a b ≤ 0) :=
    ⟨fun a b c hab hbc => (hR a c).2 (htrans a b c ((hR a b).1 hab) ((hR b c).1 hbc))⟩
  have hs : List.Sorted (fun a b => cmp a b ≤ 0) (stableSort cmp l) :=
    List.sorted_insertionSort _ l
  exact List.Pairwise.imp (fun {a b} hab => (hR a b).1 hab) hs

theorem filter_orderedInsert {α : Type} (r : α → α → Prop) [DecidableRel r] (p : α → Bool)
    (hp : ∀ a b, p a = true → p b = true → r a b) (a : α) (l : List α) :
    (List.orderedInsert r a l).filter p = (a :: l).filter p := by
  induction l with
  | nil => simp
  | cons b l ih =>
    by_cases hab : r a b
    · simp [List.orderedInsert, hab]
    · have hnot : ¬ (p a = true ∧ p b = true) := fun h => hab (hp a b h.1 h.2)
      simp only [List.orderedInsert, hab, if_false, List.filter_cons, ih]
      cases hpa : p a <;> cases hpb : p b <;> simp_all

theorem filter_stableSort {α : Type} (cmp : α → α → ℚ) (p : α → Bool)
    (hp : ∀ a b, p a = true → p b = true → cmp a b ≤ 0) (l : List α) :
    (stableSort cmp l).filter p = l.filter p := by
  unfold stableSort
  induction l with
  | nil => simp
  | cons a l ih =>
    rw [List.insertionSort, filter_orderedInsert _ p hp, List.filter_cons, List.filter_cons, ih]


theorem getProperty_of_not_own (key : String)
    (h : key ≠ "newest" ∧ key ≠ "oldest" ∧ key ≠ "rating" ∧ key ≠ "quickest" ∧ key ≠ "popular") :
    getProperty key = inherited key := by
  obtain ⟨h1, h2, h3, h4, h5⟩ := h
  have e1 : (key == "newest") = false := by simpa using h1
  have e2 : (key == "oldest") = false := by simpa using h2
  have e3 : (key == "rating") = false := by simpa using h3
  have e4 : (key == "quickest") = false := by simpa using h4
  have e5 : (key == "popular") = false := by simpa using h5
  simp [getProperty, sortFns, List.lookup, e1, e2, e3, e4, e5]

theorem comparatorFor_of_not_own (key : String)
    (h : key ≠ "newest" ∧ key ≠ "oldest" ∧ key ≠ "rating" ∧ key ≠ "quickest" ∧ key ≠ "popular") :
    comparatorFor key =
      if key = "__proto__" then .object
      else if key = "constructor" ∨ key = "toString" then .notANumberFn
      else if key ∈ throwingMethods then .throwingFn
      else comparatorFor "newest" := by
  have hn : comparatorFor "newest" = getProperty "newest" := rfl
  rw [hn]
  unfold comparatorFor
  rw [getProperty_of_not_own key h]
  unfold inherited
  split_ifs <;> rfl

theorem comparatorFor_cases (key : String) :
    comparatorFor key = comparatorFor "newest" ∨ comparatorFor key = comparatorFor "oldest" ∨
    comparatorFor key = comparatorFor "rating" ∨ comparatorFor key = comparatorFor "quickest" ∨
    comparatorFor key = comparatorFor "popular" ∨ comparatorFor key = .object ∨
    comparatorFor key = .notANumberFn ∨ comparatorFor key = .throwingFn := by
  by_cases h1 : key = "newest"
  · subst h1; exact Or.inl rfl
  by_cases h2 : key = "oldest"
  · subst h2; exact Or.inr (Or.inl rfl)
  by_cases h3 : key = "rating"
  · subst h3; exact Or.inr (Or.inr (Or.inl rfl))
  by_cases h4 : key = "quickest"
  · subst h4; exact Or.inr (Or.inr (Or.inr (Or.inl rfl)))
  by_cases h5 : key = "popular"
  · subst h5; exact Or.inr (Or.inr (Or.inr (Or.inr (Or.inl rfl))))
  rw [comparatorFor_of_not_own key ⟨h1, h2, h3, h4, h5⟩]
  split_ifs <;> simp

theorem comparatorFor_unknown (key : String)
    (hown : key ≠ "newest" ∧ key ≠ "oldest" ∧ key ≠ "rating" ∧ key ≠ "quickest" ∧
      key ≠ "popular")
    (hproto : key ≠ "__proto__" ∧ key ≠ "constructor" ∧ key ≠ "toString" ∧
      key ∉ throwingMethods) :
    comparatorFor key = comparatorFor "newest" := by
  obtain ⟨p1, p2, p3, p4⟩ := hproto
  rw [comparatorFor_of_not_own key hown]
  simp [p1, p2, p3, p4]


theorem sortRecipes_of_compareFn (state : State) (l : List Recipe) (f : Recipe → Recipe → ℚ)
    (h : comparatorFor state.sort = .compareFn f) :
    sortRecipes state l = .ok (stableSort f l) := by
  unfold sortRecipes
  rw [h]
  rfl

theorem sortCompare_self (key : String) (a : Recipe) :
    sortCompare (comparatorFor key) a a = 0 := by
  rcases comparatorFor_cases key with h | h | h | h | h | h | h | h <;> rw [h]
  · simp [comparatorFor_newest, sortCompare]
  · simp [comparatorFor_oldest, sortCompare]
  · simp [comparatorFor_rating, sortCompare]
  · simp [comparatorFor_quickest, sortCompare]
  · simp [comparatorFor_popular, sortCompare]
  · rfl
  · rfl
  · rfl

theorem sortCompare_tie (key : String) (x a b : Recipe)
    (ha : sortCompare (comparatorFor key) x a = 0)
    (hb : sortCompare (comparatorFor key) x b = 0) :
    sortCompare (comparatorFor key) a b ≤ 0 := by
  rcases comparatorFor_cases key with h | h | h | h | h | h | h | h <;> rw [h] at ha hb ⊢
  · simp only [comparatorFor_newest, sortCompare] at ha hb ⊢
    linarith
  · simp only [comparatorFor_oldest, sortCompare] at ha hb ⊢
    linarith
  · simp only [comparatorFor_rating, sortCompare] at ha hb ⊢
    linarith
  · simp only [comparatorFor_quickest, sortCompare] at ha hb ⊢
    linarith
  · simp only [comparatorFor_popular, sortCompare] at ha hb ⊢
    linarith
  · simp [sortCompare]
  · simp [sortCompare]
  · simp [sortCompare]

theorem arraySort_filter_tie (key : String) (l out : List Recipe)
    (h : arraySort (comparatorFor key) l = .ok out) (x : Recipe) :
    out.filter (fun z => decide (sortCompare (comparatorFor key) x z = 0)) =
      l.filter (fun z => decide (sortCompare (comparatorFor key) x z = 0)) := by
  have hst : stableSort (sortCompare (comparatorFor key)) l = out →
      out.filter (fun z => decide (sortCompare (comparatorFor key) x z = 0)) =
        l.filter (fun z => decide (sortCompare (comparatorFor key) x z = 0)) := fun e => by
    rw [← e]
    exact filter_stableSort (sortCompare (comparatorFor key))
      (fun z => decide (sortCompare (comparatorFor key) x z = 0))
      (fun a b ha hb => sortCompare_tie key x a b (by simpa using ha) (by simpa using hb)) l
  generalize hc : comparatorFor key = c at h hst ⊢
  cases c with
  | undefined => exact hst (by simpa [arraySort] using h)
  | compareFn f => exact hst (by simpa [arraySort] using h)
  | object => simp [arraySort] at h
  | notANumberFn => exact hst (by simpa [arraySort] using h)
  | throwingFn =>
    simp only [arraySort] at h
    split_ifs at h
    have : l = out := by simpa using h
    rw [this]

/-- C6: with the key "newest" the sorted list has non-increasing ids, with
"oldest" non-decreasing ids, and with "quickest" non-decreasing total times
`prepTime + cookTime`; in each case `sortRecipes` returns a list. -/
theorem sortRecipes_newest_oldest_quickest (state : State) (l : List Recipe) :
    (∃ out, sortRecipes { state with sort := "newest" } l = .ok out ∧
      (out.map (fun r => r.id)).Sorted (fun i j => i ≥ j)) ∧
    (∃ out, sortRecipes { state with sort := "oldest" } l = .ok out ∧
      (out.map (fun r => r.id)).Sorted (fun i j => i ≤ j)) ∧
    (∃ out, sortRecipes { state with sort := "quickest" } l = .ok out ∧
      (out.map (fun r => r.prepTime + r.cookTime)).Sorted (fun s t => s ≤ t)) := by
  refine ⟨⟨_, sortRecipes_of_compareFn _ l _ comparatorFor_newest, ?_⟩,
    ⟨_, sortRecipes_of_compareFn _ l _ comparatorFor_oldest, ?_⟩,
    ⟨_, sortRecipes_of_compareFn _ l _ comparatorFor_quickest, ?_⟩⟩
  · rw [List.Sorted, List.pairwise_map]
    apply stableSort_pairwise
    · intro a b
      rw [sub_nonpos]
      exact Int.cast_le
    · intro a b
      exact le_total b.id a.id
    · intro a b c hab hbc
      exact le_trans hbc hab
  · rw [List.Sorted, List.pairwise_map]
    apply stableSort_pairwise
    · intro a b
      rw [sub_nonpos]
      exact Int.cast_le
    · intro a b
      exact le_total a.id b.id
    · intro a b c hab hbc
      exact le_trans hab hbc
  · rw [List.Sorted, List.pairwise_map]
    apply stableSort_pairwise
    · intro a b
      rw [sub_nonpos]
      exact Nat.cast_le
    · intro a b
      exact le_total _ _
    · intro a b c hab hbc
      exact le_trans hab hbc

/-- C7, refuted as stated: "highest-rated" is not a key of the comparator
table, so the first two shipped recipes come back ordered by id, the lower
rating (4.7) in front of the higher one (4.8). -/
theorem sortRecipes_highest_rated_counterexample :
    sortRecipes { initialState with sort := "highest-rated" } [recipe1, recipe2] =
      .ok [recipe2, recipe1] ∧
    ¬ List.Chain' (fun a b => a.rating ≥ b.rating) [recipe2, recipe1] := by
  constructor
  · rw [sortRecipes_of_compareFn _ _ _ (comparatorFor_highest_rated.trans comparatorFor_newest)]
    simp [stableSort, List.insertionSort, List.orderedInsert, recipe1, recipe2]
  · simp [recipe1, recipe2]
    norm_num

/-- C7, amended: with the table's key "rating" the full sorted list satisfies
`a.rating >= b.rating` for every adjacent pair `(a, b)`. -/
theorem sortRecipes_rating_adjacent (state : State) (l : List Recipe) :
    ∃ out, sortRecipes { state with sort := "rating" } l = .ok out ∧
      List.Chain' (fun a b => a.rating ≥ b.rating) out := by
  refine ⟨_, sortRecipes_of_compareFn _ l _ comparatorFor_rating, ?_⟩
  apply List.Pairwise.chain'
  apply stableSort_pairwise
  · intro a b
    exact sub_nonpos
  · intro a b
    exact le_total b.rating a.rating
  · intro a b c hab hbc
    exact le_trans hbc hab

/-- C8, refuted as stated: "most-reviewed" is not a key of the comparator
table, so the second and third shipped recipes come back ordered by id, 97
reviews in front of 218. -/
theorem sortRecipes_most_reviewed_counterexample :
    sortRecipes { initialState with sort := "most-reviewed" } [recipe2, recipe3] =
      .ok [recipe3, recipe2] ∧
    ¬ ([recipe3, recipe2].map (fun r => r.reviewCount)).Sorted (fun m n => m ≥ n) := by
  constructor
  · rw [sortRecipes_of_compareFn _ _ _
      ((rfl : comparatorFor "most-reviewed" = comparatorFor "newest").trans comparatorFor_newest)]
    simp [stableSort, List.insertionSort, List.orderedInsert, recipe2, recipe3]
    norm_num
  · simp [recipe2, recipe3]

/-- C8, amended: with the table's key "popular" the sorted list has
non-increasing `reviewCount`. -/
theorem sortRecipes_popular_sorted (state : State) (l : List Recipe) :
    ∃ out, sortRecipes { state with sort := "popular" } l = .ok out ∧
      (out.map (fun r => r.reviewCount)).Sorted (fun m n => m ≥ n) := by
  refine ⟨_, sortRecipes_of_compareFn _ l _ comparatorFor_popular, ?_⟩
  rw [List.Sorted, List.pairwise_map]
  apply stableSort_pairwise
  · intro a b
    rw [sub_nonpos]
    exact Nat.cast_le
  · intro a b
    exact le_total b.reviewCount a.reviewCount
  · intro a b c hab hbc
    exact le_trans hbc hab

theorem sortRecipes_returns (state : State) (l : List Recipe)
    (hk : state.sort ≠ "__proto__" ∧ state.sort ∉ throwingMethods) :
    ∃ out, sortRecipes state l = .ok out := by
  obtain ⟨k1, k2⟩ := hk
  by_cases h1 : state.sort = "newest"
  · exact ⟨_, sortRecipes_of_compareFn state l _ (h1 ▸ comparatorFor_newest)⟩
  by_cases h2 : state.sort = "oldest"
  · exact ⟨_, sortRecipes_of_compareFn state l _ (h2 ▸ comparatorFor_oldest)⟩
  by_cases h3 : state.sort = "rating"
  · exact ⟨_, sortRecipes_of_compareFn state l _ (h3 ▸ comparatorFor_rating)⟩
  by_cases h4 : state.sort = "quickest"
  · exact ⟨_, sortRecipes_of_compareFn state l _ (h4 ▸ comparatorFor_quickest)⟩
  by_cases h5 : state.sort = "popular"
  · exact ⟨_, sortRecipes_of_compareFn state l _ (h5 ▸ comparatorFor_popular)⟩
  have hc := comparatorFor_of_not_own state.sort ⟨h1, h2, h3, h4, h5⟩
  simp only [k1, k2, if_false] at hc
  unfold sortRecipes
  rw [hc]
  split_ifs
  · exact ⟨_, rfl⟩
  · rw [comparatorFor_newest]
    exact ⟨_, rfl⟩

/-- C9: `sortRecipes` is stable for every sort key.  Whenever it returns a
list, the recipes that compare equal to a recipe `x` under the comparator in
force occur in the output in the order they have in the input, so a tied pair
`x`, `y` with `x` in front of `y` in the input has `x` in front of `y` in the
output.  A list is returned for every key but the inherited names that make
`sort` raise.  For the five comparators of the table comparing equal means:
same id (newest, oldest), same rating, same total time, same reviewCount. -/
theorem sortRecipes_stable (state : State) (l : List Recipe) (x y : Recipe) :
    (∀ out, sortRecipes state l = .ok out →
      out.filter (fun z => decide (sortCompare (comparatorFor state.sort) x z = 0)) =
        l.filter (fun z => decide (sortCompare (comparatorFor state.sort) x z = 0)) ∧
      (sortCompare (comparatorFor state.sort) x y = 0 →
        [x, y].Sublist l → [x, y].Sublist out)) ∧
    (state.sort ≠ "__proto__" ∧ state.sort ∉ throwingMethods →
      ∃ out, sortRecipes state l = .ok out) ∧
    ((sortCompare (comparatorFor "newest") x y = 0 ↔ x.id = y.id) ∧
      (sortCompare (comparatorFor "oldest") x y = 0 ↔ x.id = y.id) ∧
      (sortCompare (comparatorFor "rating") x y = 0 ↔ x.rating = y.rating) ∧
      (sortCompare (comparatorFor "quickest") x y = 0 ↔
        x.prepTime + x.cookTime = y.prepTime + y.cookTime) ∧
      (sortCompare (comparatorFor "popular") x y = 0 ↔ x.reviewCount = y.reviewCount)) := by
  refine ⟨?_, sortRecipes_returns state l, ?_, ?_, ?_, ?_, ?_⟩
  · intro out h
    have hfilter := arraySort_filter_tie state.sort l out h x
    refine ⟨hfilter, ?_⟩
    intro hxy hsub
    have h1 := hsub.filter (fun z => decide (sortCompare (comparatorFor state.sort) x z = 0))
    rw [← hfilter] at h1
    have h2 : [x, y].filter (fun z => decide (sortCompare (comparatorFor state.sort) x z = 0)) =
        [x, y] := by
      simp [List.filter, sortCompare_self, hxy]
    rw [h2] at h1
    exact h1.trans (List.filter_sublist _)
  · simp only [comparatorFor_newest, sortCompare]
    rw [sub_eq_zero, Int.cast_inj]
    exact eq_comm
  · simp only [comparatorFor_oldest, sortCompare]
    rw [sub_eq_zero, Int.cast_inj]
  · simp only [comparatorFor_rating, sortCompare]
    rw [sub_eq_zero]
    exact eq_comm
  · simp only [comparatorFor_quickest, sortCompare]
    rw [sub_eq_zero, Nat.cast_inj]
  · simp only [comparatorFor_popular, sortCompare]
    rw [sub_eq_zero, Nat.cast_inj]
    exact eq_comm

/-- Witness for C9 on shipped recipes: sorted by "rating", "Spaghetti
Carbonara" and "Masala Chai" (both rated 4.7) keep their input order behind
"Dal Bhat Tarkari" (4.8). -/
theorem sortRecipes_stable_witness :
    sortRecipes { initialState with sort := "rating" } [recipe2, recipe1, recipe6] =
      .ok [recipe1, recipe2, recipe6] ∧
    [recipe2, recipe6].Sublist [recipe1, recipe2, recipe6] := by
  have h : sortRecipes { initialState with sort := "rating" } [recipe2, recipe1, recipe6] =
      .ok [recipe1, recipe2, recipe6] := by
    rw [sortRecipes_of_compareFn _ _ _ comparatorFor_rating]
    simp [stableSort, List.insertionSort, List.orderedInsert, recipe1, recipe2, recipe6]
    norm_num
  refine ⟨h, ((sortRecipes_stable _ _ recipe2 recipe6).1 _ h).2 ?_ ?_⟩
  · show sortCompare (comparatorFor "rating") recipe2 recipe6 = 0
    simp [comparatorFor_rating, sortCompare, recipe2, recipe6]
  · exact List.Sublist.cons₂ recipe2 (List.Sublist.cons recipe1 (List.Sublist.refl _))

/-- A key that is neither an own property of `sortFns` nor a property name
of `Object.prototype` sorts exactly like "newest". -/
theorem sortRecipes_unknown_key (state : State) (key : String) (l : List Recipe)
    (hown : key ≠ "newest" ∧ key ≠ "oldest" ∧ key ≠ "rating" ∧ key ≠ "quickest" ∧
      key ≠ "popular")
    (hproto : key ≠ "__proto__" ∧ key ≠ "constructor" ∧ key ≠ "toString" ∧
      key ∉ throwingMethods) :
    sortRecipes { state with sort := key } l = sortRecipes { state with sort := "newest" } l := by
  unfold sortRecipes
  show arraySort (comparatorFor key) l = arraySort (comparatorFor "newest") l
  rw [comparatorFor_unknown key hown hproto]

/-- C10: evaluation at keys outside the comparator table that name inherited
properties of `sortFns`.  For "__proto__" the call raises `TypeError` where
"newest" returns a list; for "constructor" the first two shipped recipes come
back in input order where "newest" reverses them. -/
theorem sortRecipes_inherited_key_counterexample :
    (sortRecipes { initialState with sort := "__proto__" } [] = .error .typeError ∧
      sortRecipes { initialState with sort := "newest" } [] = .ok []) ∧
    (sortRecipes { initialState with sort := "constructor" } [recipe1, recipe2] =
        .ok [recipe1, recipe2] ∧
      sortRecipes { initialState with sort := "newest" } [recipe1, recipe2] =
        .ok [recipe2, recipe1]) := by
  refine ⟨⟨rfl, rfl⟩, ?_, ?_⟩
  · have hc : comparatorFor "constructor" = .notANumberFn := rfl
    unfold sortRecipes
    show arraySort (comparatorFor "constructor") [recipe1, recipe2] = _
    rw [hc]
    simp [arraySort, sortCompare, stableSort, List.insertionSort, List.orderedInsert]
  · rw [sortRecipes_of_compareFn _ _ _ comparatorFor_newest]
    simp [stableSort, List.insertionSort, List.orderedInsert, recipe1, recipe2]

/-! ## Pagination -/

theorem jsSlice_length {α : Type} (l : List α) (start stop : Int) :
    ((jsSlice l start stop).length : Int) =
      max ((if stop < 0 then max ((l.length : Int) + stop) 0 else min stop l.length) -
        (if start < 0 then max ((l.length : Int) + start) 0 else min start l.length)) 0 := by
  unfold jsSlice
  simp only [List.length_take, List.length_drop]
  split_ifs <;> omega

theorem jsSlice_nat {α : Type} (l : List α) (m n : Nat) :
    jsSlice l (m : Int) ((m : Int) + (n : Int)) = (l.drop m).take n := by
  unfold jsSlice
  have h1 : ¬ ((m : Int) < 0) := by omega
  have h2 : ¬ ((m : Int) + (n : Int) < 0) := by omega
  simp only [h1, h2, if_false]
  rcases le_or_lt l.length m with hm | hm
  · have e1 : (min (m : Int) (l.length : Int)).toNat = l.length := by omega
    rw [e1, List.drop_of_length_le (le_refl _), List.drop_of_length_le hm]
    simp
  · have e1 : (min (m : Int) (l.length : Int)).toNat = m := by omega
    rw [e1]
    rcases le_or_lt (m + n) l.length with hn | hn
    · have e2 : (min ((m : Int) + (n : Int)) (l.length : Int) - min (m : Int) (l.length : Int)).toNat
          = n := by omega
      rw [e2]
    · have e2 : (min ((m : Int) + (n : Int)) (l.length : Int) - min (m : Int) (l.length : Int)).toNat
          = l.length - m := by omega
      rw [e2, List.take_of_length_le (by simp), List.take_of_length_le (by simp; omega)]

theorem pageSlice_nat {α : Type} (l : List α) (p n : Nat) :
    pageSlice l ((p : Int) + 1) (n : Int) = (l.drop (p * n)).take n := by
  unfold pageSlice
  have e : ((p : Int) + 1 - 1) * (n : Int) = ((p * n : Nat) : Int) := by
    push_cast
    ring
  simp only [e]
  exact jsSlice_nat l (p * n) n

theorem pageCount_spec (total n : Nat) (hn : 1 ≤ n) :
    ∃ k : Nat, pageCount total (n : Int) = (k : Int) ∧ total ≤ k * n ∧ k * n < total + n := by
  refine ⟨(total + n - 1) / n, ?_, ?_, ?_⟩
  · unfold pageCount
    rw [Int.ceil_eq_iff]
    simp only [Int.cast_natCast]
    have hpos : (0 : ℚ) < (n : ℚ) := by exact_mod_cast hn
    have hdiv := Nat.div_add_mod (total + n - 1) n
    have hmod := Nat.mod_lt (total + n - 1) hn
    have h1 : n * ((total + n - 1) / n) ≤ total + n - 1 := by omega
    have h2 : total + n - 1 < n * ((total + n - 1) / n) + n := by omega
    constructor
    · rw [lt_div_iff₀ hpos]
      have : (((total + n - 1) / n : Nat) : ℚ) * n < (total : ℚ) + n := by
        have h1' : n * ((total + n - 1) / n) < total + n := by omega
        exact_mod_cast (by rw [Nat.mul_comm] at h1'; exact h1')
      push_cast at this ⊢
      linarith
    · rw [div_le_iff₀ hpos]
      have : (total : ℚ) ≤ (((total + n - 1) / n : Nat) : ℚ) * n := by
        have h2' : total ≤ n * ((total + n - 1) / n) := by omega
        exact_mod_cast (by rw [Nat.mul_comm] at h2'; exact h2')
      push_cast at this ⊢
      linarith
  · have hdiv := Nat.div_add_mod (total + n - 1) n
    have hmod := Nat.mod_lt (total + n - 1) hn
    rw [Nat.mul_comm]
    omega
  · have hdiv := Nat.div_add_mod (total + n - 1) n
    have hmod := Nat.mod_lt (total + n - 1) hn
    rw [Nat.mul_comm]
    omega

theorem flatten_pages {α : Type} (l : List α) (n k : Nat) :
    ((List.range k).map (fun i => (l.drop (i * n)).take n)).flatten = l.take (k * n) := by
  induction k with
  | zero => simp
  | succ k ih =>
    rw [List.range_succ, List.map_append, List.flatten_append, ih, Nat.succ_mul, List.take_add]
    simp

theorem pageSlice_length_int {α : Type} (l : List α) (page perPage : Int) :
    ((pageSlice l page perPage).length : Int) =
      max ((if (page - 1) * perPage + perPage < 0
              then max ((l.length : Int) + ((page - 1) * perPage + perPage)) 0
              else min ((page - 1) * perPage + perPage) l.length) -
        (if (page - 1) * perPage < 0 then max ((l.length : Int) + (page - 1) * perPage) 0
          else min ((page - 1) * perPage) l.length)) 0 := by
  unfold pageSlice
  exact jsSlice_length l _ _

/-- C12: for a page size `perPage >= 0` and any integer page, the slice taken
by `renderRecipes` has at most `perPage` items, both for an arbitrary
sorted-filtered list and for the page `renderRecipes` computes. -/
theorem pageSlice_length_le (L : JsLower) (RECIPES : List Recipe) (state : State)
    (h : 0 ≤ state.perPage) :
    (∀ filtered : List Recipe,
      ((pageSlice filtered state.page state.perPage).length : Int) ≤ state.perPage) ∧
    (∀ out, renderRecipes L RECIPES state = .ok out →
      (out.paged.length : Int) ≤ state.perPage) := by
  have key : ∀ filtered : List Recipe,
      ((pageSlice filtered state.page state.perPage).length : Int) ≤ state.perPage := by
    intro filtered
    rw [pageSlice_length_int]
    generalize (state.page - 1) * state.perPage = start
    split_ifs <;> omega
  refine ⟨key, ?_⟩
  intro out hout
  unfold renderRecipes at hout
  split at hout
  · cases hout
  · cases hout
    exact key _

/-- Witness for C12 on the shipped data: page 1 with page size 9. -/
theorem pageSlice_length_le_witness :
    ((pageSlice RECIPES 1 9).length : Int) ≤ 9 :=
  (pageSlice_length_le asciiLower RECIPES initialState (by decide)).1 RECIPES

/-- C13: pagination coverage.  For `perPage >= 1`, the slices for the pages
`1, 2, ..., pageCount` joined in order are the sorted-filtered list itself. -/
theorem pageSlice_coverage (filtered : List Recipe) (perPage : Int) (h : 1 ≤ perPage) :
    ((List.range (pageCount filtered.length perPage).toNat).map
      (fun (i : Nat) => pageSlice filtered ((i : Int) + 1) perPage)).flatten = filtered := by
  lift perPage to ℕ using (by omega) with n
  have hn : 1 ≤ n := by omega
  obtain ⟨k, hk, hle, _⟩ := pageCount_spec filtered.length n hn
  rw [hk]
  simp only [Int.toNat_ofNat, pageSlice_nat]
  rw [flatten_pages, List.take_of_length_le hle]

/-- Witness for C13 on the shipped data: pages of three. -/
theorem pageSlice_coverage_witness :
    ((List.range (pageCount RECIPES.length 3).toNat).map
      (fun (i : Nat) => pageSlice RECIPES ((i : Int) + 1) 3)).flatten = RECIPES :=
  pageSlice_coverage RECIPES 3 (by decide)

/-- C14, refuted as stated: for an empty result the pagination code computes
the page count 0, not 1. -/
theorem pageCount_empty_counterexample :
    pageCount 0 9 = 0 ∧ ¬ (1 ≤ pageCount 0 9) := by
  have h : pageCount 0 9 = 0 := by
    unfold pageCount
    simp
  rw [h]
  exact ⟨rfl, by decide⟩

/-- C14, amended: for a page size `perPage >= 1` the page count is
`ceil(total / perPage)`, the integer `k` with `(k - 1) * perPage < total` and
`total <= k * perPage`; it is at least 1 exactly when `total >= 1` and is 0 for
an empty result; whenever it is at most 1 no pagination control is rendered. -/
theorem pageCount_ceil (total : Nat) (perPage : Int) (h : 1 ≤ perPage) :
    ((pageCount total perPage - 1) * perPage < (total : Int) ∧
      (total : Int) ≤ pageCount total perPage * perPage) ∧
    (1 ≤ pageCount total perPage ↔ 1 ≤ total) ∧
    (total = 0 → pageCount total perPage = 0) ∧
    (pageCount total perPage ≤ 1 → paginationRendered total perPage = false) := by
  lift perPage to ℕ using (by omega) with n
  have hn : 1 ≤ n := by omega
  obtain ⟨k, hk, hle, hlt⟩ := pageCount_spec total n hn
  have hle' : (total : Int) ≤ (k : Int) * (n : Int) := by exact_mod_cast hle
  have hlt' : (k : Int) * (n : Int) < (total : Int) + (n : Int) := by exact_mod_cast hlt
  have hk0 : k = 0 ↔ total = 0 := by
    constructor
    · intro h0
      subst h0
      omega
    · intro h0
      subst h0
      rcases Nat.eq_zero_or_pos k with hz | hz
      · exact hz
      · have : 1 * n ≤ k * n := Nat.mul_le_mul_right n hz
        omega
  rw [hk]
  refine ⟨⟨?_, hle'⟩, ?_, ?_, ?_⟩
  · have : ((k : Int) - 1) * (n : Int) = (k : Int) * (n : Int) - (n : Int) := by ring
    omega
  · omega
  · intro h0
    have := hk0.2 h0
    omega
  · intro h1
    unfold paginationRendered
    rw [hk]
    simp [h1]

/-- Witness for C14 (amended): 20 results in pages of 9. -/
theorem pageCount_ceil_witness :
    (pageCount 20 9 - 1) * 9 < (20 : Int) ∧ (20 : Int) ≤ pageCount 20 9 * 9 :=
  (pageCount_ceil 20 9 (by decide)).1

/-- C15: for `perPage >= 1` and a page number greater than `pageCount`, the
slice taken by `renderRecipes` is the empty list. -/
theorem pageSlice_beyond_last (filtered : List Recipe) (perPage page : Int)
    (h : 1 ≤ perPage) (hp : pageCount filtered.length perPage < page) :
    pageSlice filtered page perPage = [] := by
  lift perPage to ℕ using (by omega) with n
  have hn : 1 ≤ n := by omega
  obtain ⟨k, hk, hle, _⟩ := pageCount_spec filtered.length n hn
  rw [hk] at hp
  obtain ⟨p, rfl⟩ : ∃ p : ℕ, page = (p : Int) + 1 := ⟨(page - 1).toNat, by omega⟩
  have hkp : k ≤ p := by omega
  rw [pageSlice_nat]
  have : filtered.length ≤ p * n := le_trans hle (Nat.mul_le_mul_right n hkp)
  rw [List.drop_of_length_le this]
  simp

/-- Witness for C15 on the shipped data: eight recipes in pages of nine make
one page, and page 2 is empty. -/
theorem pageSlice_beyond_last_witness :
    pageSlice RECIPES 2 9 = [] := by
  have h8 : pageCount RECIPES.length 9 = 1 := by
    unfold pageCount
    rw [Int.ceil_eq_iff]
    simp [RECIPES]
    norm_num
  exact pageSlice_beyond_last RECIPES 9 2 (by decide) (by rw [h8]; decide)

/-- C16, refuted as stated: on the eight shipped recipes with page size 3, the
page number -1 gives `start = -6`, which `slice` counts from the end, and the
slice holds three recipes. -/
theorem pageSlice_negative_page_counterexample :
    pageSlice RECIPES (-1) 3 = [recipe3, recipe4, recipe5] ∧
    pageSlice RECIPES (-1) 3 ≠ [] := by
  have h : pageSlice RECIPES (-1) 3 = [recipe3, recipe4, recipe5] := by
    simp [pageSlice, jsSlice, RECIPES]
  rw [h]
  exact ⟨rfl, by simp⟩

/-- C16, amended: for `perPage >= 1` and a page number that is zero or
negative, the slice taken by `renderRecipes` is empty exactly when the page is
0 or the list has at most `-page * perPage` elements. -/
theorem pageSlice_nonpositive_page (filtered : List Recipe) (perPage page : Int)
    (h : 1 ≤ perPage) (hp : page ≤ 0) :
    pageSlice filtered page perPage = [] ↔
      (page = 0 ∨ (filtered.length : Int) ≤ -page * perPage) := by
  rw [← List.length_eq_zero, ← Int.natCast_eq_zero, pageSlice_length_int]
  have e : (page - 1) * perPage + perPage = -(-page * perPage) := by ring
  have e' : (page - 1) * perPage = -(-page * perPage) - perPage := by ring
  rw [e, e']
  have hm : 0 ≤ -page * perPage := mul_nonneg (by omega) (by omega)
  have hz : -page * perPage = 0 ↔ page = 0 := by
    constructor
    · intro h0
      rcases mul_eq_zero.1 h0 with h1 | h1
      · omega
      · omega
    · intro h0
      rw [h0]
      simp
  generalize -page * perPage = m at hm hz ⊢
  rw [← hz]
  split_ifs <;> omega

/-- Witness for C16 (amended): page 0 of the shipped data is empty. -/
theorem pageSlice_nonpositive_page_witness :
    pageSlice RECIPES 0 9 = [] :=
  (pageSlice_nonpositive_page RECIPES 9 0 (by decide) (by decide)).2 (Or.inl rfl)

/-- C17: for `perPage >= 1` and a page `p` with `1 <= p <= pageCount`, the
slice has `min(perPage, n - (p - 1) * perPage)` items, `n` the length of the
list.  A list of 20 with page size 9 has 3 pages and 2 items on page 3; a list
of 5 has 1 page holding all 5 items. -/
theorem pageSlice_length (filtered : List Recipe) :
    (∀ perPage page : Int, 1 ≤ perPage → 1 ≤ page →
      page ≤ pageCount filtered.length perPage →
      ((pageSlice filtered page perPage).length : Int) =
        min perPage ((filtered.length : Int) - (page - 1) * perPage)) ∧
    (filtered.length = 20 →
      pageCount filtered.length 9 = 3 ∧ (pageSlice filtered 3 9).length = 2) ∧
    (filtered.length = 5 →
      pageCount filtered.length 9 = 1 ∧ (pageSlice filtered 1 9).length = 5) := by
  have key : ∀ perPage page : Int, 1 ≤ perPage → 1 ≤ page →
      page ≤ pageCount filtered.length perPage →
      ((pageSlice filtered page perPage).length : Int) =
        min perPage ((filtered.length : Int) - (page - 1) * perPage) := by
    intro perPage page h h1 h2
    lift perPage to ℕ using (by omega) with n
    have hn : 1 ≤ n := by omega
    obtain ⟨k, hk, _, hlt⟩ := pageCount_spec filtered.length n hn
    rw [hk] at h2
    obtain ⟨p, rfl⟩ : ∃ p : ℕ, page = (p : Int) + 1 := ⟨(page - 1).toNat, by omega⟩
    have hpk : p + 1 ≤ k := by omega
    have hmul : (p + 1) * n ≤ k * n := Nat.mul_le_mul_right n hpk
    rw [Nat.succ_mul] at hmul
    rw [pageSlice_nat, List.length_take, List.length_drop]
    have e : ((p : Int) + 1 - 1) * (n : Int) = ((p * n : Nat) : Int) := by
      push_cast
      ring
    rw [e]
    omega
  have h20 : pageCount 20 9 = 3 := by
    unfold pageCount
    rw [Int.ceil_eq_iff]
    norm_num
  have h5 : pageCount 5 9 = 1 := by
    unfold pageCount
    rw [Int.ceil_eq_iff]
    norm_num
  refine ⟨key, ?_, ?_⟩
  · intro hlen
    rw [hlen]
    refine ⟨h20, ?_⟩
    have := key 9 3 (by decide) (by decide) (by rw [hlen, h20])
    rw [hlen] at this
    have e : (min (9 : Int) (((20 : Nat) : Int) - (3 - 1) * 9)) = 2 := by decide
    rw [e] at this
    exact_mod_cast this
  · intro hlen
    rw [hlen]
    refine ⟨h5, ?_⟩
    have := key 9 1 (by decide) (by decide) (by rw [hlen, h5])
    rw [hlen] at this
    have e : (min (9 : Int) (((5 : Nat) : Int) - (1 - 1) * 9)) = 5 := by decide
    rw [e] at this
    exact_mod_cast this

/-- Witness for C17 on the shipped data: eight recipes in pages of three, the
third page holds two. -/
theorem pageSlice_length_witness :
    ((pageSlice RECIPES 3 3).length : Int) = min 3 ((RECIPES.length : Int) - (3 - 1) * 3) := by
  have h8 : pageCount RECIPES.length 3 = 3 := by
    unfold pageCount
    rw [Int.ceil_eq_iff]
    simp [RECIPES]
    norm_num
  exact (pageSlice_length RECIPES).1 3 3 (by decide) (by decide) (by rw [h8])

/-! ## Sorting by reference and the total count -/

theorem arraySort_perm (c : Property) (l out : List Recipe) (h : arraySort c l = .ok out) :
    out.Perm l := by
  have hst : stableSort (sortCompare c) l = out → out.Perm l := fun e => by
    rw [← e]
    exact List.perm_insertionSort _ l
  cases c with
  | undefined => exact hst (by simpa [arraySort] using h)
  | compareFn f => exact hst (by simpa [arraySort] using h)
  | object => simp [arraySort] at h
  | notANumberFn => exact hst (by simpa [arraySort] using h)
  | throwingFn =>
    simp only [arraySort] at h
    split_ifs at h
    have : l = out := by simpa using h
    rw [this]

theorem heapSlice_getD (h : Heap) (arr : Nat) :
    (heapSlice h arr).1.getD (heapSlice h arr).2 [] = h.getD arr [] := by
  simp [heapSlice, List.getD_eq_getElem?_getD]

/-- When `sortRecipes` returns, it returns a reference that is new, every
array that was in the heap before the call is unchanged, the array returned
is a permutation of the argument, and it is the list the value-level
`sortRecipes` computes. -/
theorem sortRecipesRef_frame (state : State) (h h' : Heap) (list r : Nat)
    (hl : list < h.length) (hs : sortRecipesRef state h list = .ok (h', r)) :
    r ≠ list ∧ r = h.length ∧
    (∀ i, i < h.length → h'.getD i [] = h.getD i []) ∧
    (h'.getD r []).Perm (h.getD list []) ∧
    sortRecipes state (h.getD list []) = .ok (h'.getD r []) := by
  unfold sortRecipesRef heapSort at hs
  simp only [] at hs
  rw [heapSlice_getD] at hs
  cases hout : arraySort (comparatorFor state.sort) (h.getD list []) with
  | error e =>
    rw [hout] at hs
    cases hs
  | ok out =>
    rw [hout] at hs
    simp only [heapSlice, Except.ok.injEq, Prod.mk.injEq] at hs
    obtain ⟨hh, hr⟩ := hs
    subst hr
    subst hh
    have hget : ((h ++ [h.getD list []]).set h.length out).getD h.length [] = out := by
      simp [List.getD_eq_getElem?_getD]
    refine ⟨by omega, rfl, ?_, ?_, ?_⟩
    · intro i hi
      simp only [List.getD_eq_getElem?_getD]
      rw [List.getElem?_set_ne (by omega), List.getElem?_append_left hi]
    · rw [hget]
      exact arraySort_perm _ _ _ hout
    · rw [hget]
      exact hout

theorem renderRecipes_total (L : JsLower) (RECIPES : List Recipe) (state : State)
    (out : Rendered) (h : renderRecipes L RECIPES state = .ok out) :
    out.total = (getFilteredRecipes L RECIPES state).length ∧
    ∀ page : Int, ∃ out', renderRecipes L RECIPES { state with page := page } = .ok out' ∧
      out'.total = out.total := by
  unfold renderRecipes at h
  cases hs : sortRecipes state (getFilteredRecipes L RECIPES state) with
  | error e =>
    rw [hs] at h
    cases h
  | ok filtered =>
    rw [hs] at h
    cases h
    have hperm : filtered.Perm (getFilteredRecipes L RECIPES state) :=
      arraySort_perm _ _ _ hs
    refine ⟨hperm.length_eq, ?_⟩
    intro page
    have hs' : sortRecipes { state with page := page }
        (getFilteredRecipes L RECIPES { state with page := page }) = .ok filtered := hs
    unfold renderRecipes
    rw [hs']
    exact ⟨_, rfl, rfl⟩

/-- C11: evaluation at a sort key for which no list comes back.  With
`state.sort = "__proto__"` the comparator handed to `sort` is
`Object.prototype`: the call raises `TypeError`, `sortRecipes` returns no
list and `renderRecipes` shows no count. -/
theorem sortRecipes_proto_returns_no_list (L : JsLower) :
    sortRecipesRef { initialState with sort := "__proto__" } [RECIPES] 0 =
      .error .typeError ∧
    sortRecipes { initialState with sort := "__proto__" } RECIPES = .error .typeError ∧
    renderRecipes L RECIPES { initialState with sort := "__proto__" } = .error .typeError := by
  refine ⟨rfl, rfl, ?_⟩
  unfold renderRecipes
  have hs : sortRecipes { initialState with sort := "__proto__" }
      (getFilteredRecipes L RECIPES { initialState with sort := "__proto__" }) =
        .error .typeError := by
    unfold sortRecipes
    rfl
  rw [hs]

/-! ## Event handlers -/

/-- C18: every handler that changes a filter, the time bound, the search term
or the sort key leaves `state.page` equal to 1, whatever the state was before,
and so does every non-empty sequence of such handlers. -/
theorem handle_page_one (s : State) (e : QueryEvent) (es : List QueryEvent) :
    (handle s e).page = 1 ∧ ((es ++ [e]).foldl handle s).page = 1 := by
  have key : ∀ (t : State) (e : QueryEvent), (handle t e).page = 1 := by
    intro t e
    cases e with
    | clearCategory => rfl
    | filterChange key val isRadioOrCheckbox checked => rfl
    | timeSlider val => rfl
    | clearAll => rfl
    | removeTag key =>
      cases key with
      | filter key => rfl
      | maxTime => rfl
    | search val => rfl
    | searchClear => rfl
    | sortChange val => rfl
  refine ⟨key s e, ?_⟩
  rw [List.foldl_append]
  exact key _ e

/-! ## Password validation -/

theorem hasUppercase_iff (s : String) :
    hasUppercase s = true ↔ ∃ c ∈ s.data, 'A' ≤ c ∧ c ≤ 'Z' := by
  simp [hasUppercase, List.any_eq_true]

theorem hasDigit_iff (s : String) :
    hasDigit s = true ↔ ∃ c ∈ s.data, '0' ≤ c ∧ c ≤ '9' := by
  simp [hasDigit, List.any_eq_true]

theorem jsLength_of_truthy_false (p : String) (h : truthy p = false) : jsLength p = 0 := by
  have : p = "" := by simpa [truthy] using h
  subst this
  rfl

/-- C19: `validatePassword` returns `valid = true` exactly for a string of at
least 8 characters (UTF-16 code units, what `length` counts) with an uppercase
letter `A`-`Z` and a digit `0`-`9`; the message is empty exactly when the result
is valid; otherwise it is the message of the first failing rule in the order
length, uppercase, digit. -/
theorem validatePassword_spec (password : Option String) :
    ((validatePassword password).valid = true ↔
      ∃ p, password = some p ∧ 8 ≤ jsLength p ∧
        (∃ c ∈ p.data, 'A' ≤ c ∧ c ≤ 'Z') ∧ (∃ c ∈ p.data, '0' ≤ c ∧ c ≤ '9')) ∧
    ((validatePassword password).message = "" ↔ (validatePassword password).valid = true) ∧
    (password = none →
      (validatePassword password).message = "Password must be at least 8 characters.") ∧
    (∀ p, password = some p →
      (jsLength p < 8 →
        (validatePassword password).message = "Password must be at least 8 characters.") ∧
      (8 ≤ jsLength p → (¬ ∃ c ∈ p.data, 'A' ≤ c ∧ c ≤ 'Z') →
        (validatePassword password).message =
          "Password must contain at least one uppercase letter.") ∧
      (8 ≤ jsLength p → (∃ c ∈ p.data, 'A' ≤ c ∧ c ≤ 'Z') →
        (¬ ∃ c ∈ p.data, '0' ≤ c ∧ c ≤ '9') →
        (validatePassword password).message =
          "Password must contain at least one number.")) := by
  cases password with
  | none =>
    refine ⟨?_, ?_, ?_, ?_⟩
    · simp [validatePassword]
    · simp only [validatePassword]
      decide
    · intro _
      rfl
    · intro p hp
      cases hp
  | some q =>
    have hlen : truthy q = false → jsLength q < 8 := fun h => by
      rw [jsLength_of_truthy_false q h]
      decide
    by_cases h1 : jsLength q < 8
    · have hv : validatePassword (some q) =
          { valid := false, message := "Password must be at least 8 characters." } := by
        simp [validatePassword, h1]
      rw [hv]
      refine ⟨?_, by decide, ?_, ?_⟩
      · constructor
        · intro h
          cases h
        · rintro ⟨p, hp, h8, _⟩
          cases hp
          omega
      · intro h
        cases h
      · intro p hp
        cases hp
        exact ⟨fun _ => rfl, fun h8 => by omega, fun h8 => by omega⟩
    · have ht : truthy q = true := by
        by_contra hc
        exact h1 (hlen (by simpa using hc))
      by_cases h2 : hasUppercase q = true
      · by_cases h3 : hasDigit q = true
        · have hv : validatePassword (some q) = { valid := true, message := "" } := by
            simp [validatePassword, h1, ht, h2, h3]
          rw [hv]
          refine ⟨?_, by decide, ?_, ?_⟩
          · constructor
            · intro _
              exact ⟨q, rfl, by omega, (hasUppercase_iff q).1 h2, (hasDigit_iff q).1 h3⟩
            · intro _
              rfl
          · intro h
            cases h
          · intro p hp
            cases hp
            refine ⟨fun h => absurd h h1, fun _ hn => absurd ((hasUppercase_iff q).1 h2) hn,
              fun _ _ hn => absurd ((hasDigit_iff q).1 h3) hn⟩
        · have hv : validatePassword (some q) =
              { valid := false, message := "Password must contain at least one number." } := by
            simp [validatePassword, h1, ht, h2, h3]
          rw [hv]
          refine ⟨?_, by decide, ?_, ?_⟩
          · constructor
            · intro h
              cases h
            · rintro ⟨p, hp, _, _, hd⟩
              cases hp
              exact absurd ((hasDigit_iff q).2 hd) h3
          · intro h
            cases h
          · intro p hp
            cases hp
            exact ⟨fun h => absurd h h1, fun _ hn => absurd ((hasUppercase_iff q).1 h2) hn,
              fun _ _ _ => rfl⟩
      · have hv : validatePassword (some q) =
            { valid := false,
              message := "Password must contain at least one uppercase letter." } := by
          simp [validatePassword, h1, ht, h2]
        rw [hv]
        refine ⟨?_, by decide, ?_, ?_⟩
        · constructor
          · intro h
            cases h
          · rintro ⟨p, hp, _, hu, _⟩
            cases hp
            exact absurd ((hasUppercase_iff q).2 hu) h2
        · intro h
          cases h
        · intro p hp
          cases hp
          exact ⟨fun h => absurd h h1, fun _ _ => rfl,
            fun _ hu => absurd ((hasUppercase_iff q).2 hu) h2⟩

/-- Witness for C19: "passw0rd" is long enough and has a digit but no
uppercase letter, so the uppercase message is reported. -/
theorem validatePassword_spec_witness :
    (validatePassword (some "passw0rd")).message =
      "Password must contain at least one uppercase letter." :=
  ((validatePassword_spec (some "passw0rd")).2.2.2 "passw0rd" rfl).2.1 (by decide) (by decide)

/-! ## HTML escaping -/

theorem escapeHtml_data (s : String) :
    (escapeHtml s).data =
      s.data.flatMap (fun c => if isHtmlSpecial c then escapeReplacement c else [c]) := by
  unfold escapeHtml
  by_cases h : truthy s = true
  · simp [h]
  · have hs : s = "" := by simpa [truthy] using h
    subst hs
    simp [truthy]

theorem htmlEntities_shape :
    ∀ e ∈ htmlEntities, e.data.head? = some '&' ∧ '&' ∉ e.data.tail ∧
      ∀ c ∈ e.data, c ≠ '<' ∧ c ≠ '>' ∧ c ≠ quoteChar ∧ c ≠ aposChar := by
  decide

theorem escapeReplacement_mem (c : Char) (h : isHtmlSpecial c = true) :
    ∃ e ∈ htmlEntities, escapeReplacement c = e.data := by
  unfold escapeReplacement escapeMap
  simp only [isHtmlSpecial, Bool.or_eq_true, beq_iff_eq] at h
  rcases h with (((h | h) | h) | h) | h <;> subst h <;> simp [htmlEntities] <;> decide

theorem isHtmlSpecial_false_iff (c : Char) :
    isHtmlSpecial c = false ↔
      c ≠ '&' ∧ c ≠ '<' ∧ c ≠ '>' ∧ c ≠ quoteChar ∧ c ≠ aposChar := by
  simp [isHtmlSpecial]
  tauto

theorem flatMap_amp_entity (l : List Char) (i : Nat)
    (h : (l.flatMap (fun c => if isHtmlSpecial c then escapeReplacement c else [c]))[i]? =
      some '&') :
    ∃ e ∈ htmlEntities, e.data <+:
      (l.flatMap (fun c => if isHtmlSpecial c then escapeReplacement c else [c])).drop i := by
  induction l generalizing i with
  | nil => simp at h
  | cons c l ih =>
    rw [List.flatMap_cons] at h ⊢
    rcases lt_or_le i (if isHtmlSpecial c then escapeReplacement c else [c]).length with hi | hi
    · rw [List.getElem?_append_left hi] at h
      by_cases hc : isHtmlSpecial c = true
      · obtain ⟨e, he, hrep⟩ := escapeReplacement_mem c hc
        simp only [hc, if_true, hrep] at h hi ⊢
        obtain ⟨hhead, htail, _⟩ := htmlEntities_shape e he
        cases hd : e.data with
        | nil => rw [hd] at hhead; simp at hhead
        | cons x t =>
          rw [hd] at h hhead htail
          cases i with
          | zero =>
            refine ⟨e, he, ?_⟩
            rw [hd]
            simp
          | succ j =>
            simp only [List.getElem?_cons_succ] at h
            exact absurd (List.getElem?_mem h) (by simpa using htail)
      · have hc' : isHtmlSpecial c = false := by simpa using hc
        simp only [hc', Bool.false_eq_true, if_false, List.length_singleton] at h hi
        have hi0 : i = 0 := by omega
        subst hi0
        simp only [List.getElem?_cons_zero, Option.some.injEq] at h
        have := (isHtmlSpecial_false_iff c).1 hc'
        exact absurd h this.1
    · rw [List.getElem?_append_right hi] at h
      obtain ⟨e, he, hpre⟩ := ih _ h
      refine ⟨e, he, ?_⟩
      rw [List.drop_append_eq_append_drop, List.drop_of_length_le hi]
      simpa using hpre

/-- C20: for every string `s`, `escapeHtml(s)` contains none of `<`, `>`, the
double quote and the apostrophe; every `&` in it starts one of the five
entities; a character outside the five special ones is copied in place,
between the escaped text before it and the escaped text after it, and a
special character is replaced in place by an entity. -/
theorem escapeHtml_safe (s : String) :
    (∀ c ∈ (escapeHtml s).data, c ≠ '<' ∧ c ≠ '>' ∧ c ≠ quoteChar ∧ c ≠ aposChar) ∧
    (∀ i : Nat, (escapeHtml s).data[i]? = some '&' →
      ∃ e ∈ htmlEntities, e.data <+: (escapeHtml s).data.drop i) ∧
    (∀ (a b : List Char) (c : Char), s.data = a ++ c :: b →
      (c ≠ '&' ∧ c ≠ '<' ∧ c ≠ '>' ∧ c ≠ quoteChar ∧ c ≠ aposChar →
        (escapeHtml s).data = (escapeHtml ⟨a⟩).data ++ c :: (escapeHtml ⟨b⟩).data) ∧
      (¬ (c ≠ '&' ∧ c ≠ '<' ∧ c ≠ '>' ∧ c ≠ quoteChar ∧ c ≠ aposChar) →
        ∃ e ∈ htmlEntities,
          (escapeHtml s).data = (escapeHtml ⟨a⟩).data ++ e.data ++ (escapeHtml ⟨b⟩).data)) := by
  refine ⟨?_, ?_, ?_⟩
  · intro c hc
    rw [escapeHtml_data, List.mem_flatMap] at hc
    obtain ⟨x, _, hx⟩ := hc
    by_cases hs : isHtmlSpecial x = true
    · obtain ⟨e, he, hrep⟩ := escapeReplacement_mem x hs
      simp only [hs, if_true, hrep] at hx
      exact (htmlEntities_shape e he).2.2 c hx
    · have hs' : isHtmlSpecial x = false := by simpa using hs
      simp only [hs', Bool.false_eq_true, if_false, List.mem_singleton] at hx
      subst hx
      exact ((isHtmlSpecial_false_iff c).1 hs').2
  · intro i hi
    rw [escapeHtml_data] at hi ⊢
    exact flatMap_amp_entity s.data i hi
  · intro a b c hs
    simp only [escapeHtml_data, hs, List.flatMap_append, List.flatMap_cons]
    constructor
    · intro hc
      have hs' := (isHtmlSpecial_false_iff c).2 hc
      simp [hs']
    · intro hc
      have hs' : isHtmlSpecial c = true := by
        by_contra hn
        exact hc ((isHtmlSpecial_false_iff c).1 (by simpa using hn))
      obtain ⟨e, he, hrep⟩ := escapeReplacement_mem c hs'
      refine ⟨e, he, ?_⟩
      simp [hs', hrep]

/-- Witness for C20 on the text `<b>`: the letter is copied between the two
escaped brackets. -/
theorem escapeHtml_safe_witness :
    (escapeHtml "<b>").data =
      (escapeHtml ⟨['<']⟩).data ++ 'b' :: (escapeHtml ⟨['>']⟩).data :=
  ((escapeHtml_safe "<b>").2.2 ['<'] ['>'] 'b' rfl).1 (by decide)

/-! ## Truncation -/

theorem utf16_dots_length : (utf16 "...").length = 3 := by
  decide

/-- C21: evaluation of `truncate("abcdef", 2)`.  The end index `maxLen - 3`
is negative, `slice` counts it from the end, and the six-letter text comes
back as "abcde...": eight code units, more than the maximum length 2 and more
than the input. -/
theorem truncate_small_maxLen_counterexample :
    truncate (utf16 "abcdef") 2 = utf16 "abcde..." ∧
    (truncate (utf16 "abcdef") 2).length = 8 ∧
    ¬ ((truncate (utf16 "abcdef") 2).length ≤ 2) ∧
    (utf16 "abcdef").length < (truncate (utf16 "abcdef") 2).length := by
  decide

/-- The length of a truncated text where the end index is not negative:
`truncate(s, maxLen)` returns `s` unchanged when `s.length <= maxLen`; for
`maxLen >= 3` the result has length at most `maxLen`, and when `s` is longer
than `maxLen` it ends in "..." and has length exactly `maxLen`. -/
theorem truncate_length (str : JsString) (maxLen : Int) :
    ((str.length : Int) ≤ maxLen → truncate str maxLen = str) ∧
    (3 ≤ maxLen → ((truncate str maxLen).length : Int) ≤ maxLen) ∧
    (3 ≤ maxLen → maxLen < (str.length : Int) →
      utf16 "..." <:+ truncate str maxLen ∧
        ((truncate str maxLen).length : Int) = maxLen) := by
  have hlong : 3 ≤ maxLen → maxLen < (str.length : Int) →
      utf16 "..." <:+ truncate str maxLen ∧
        ((truncate str maxLen).length : Int) = maxLen := by
    intro h3 hlt
    have hne : str.isEmpty = false := by
      cases str with
      | nil => simp at hlt; omega
      | cons a t => rfl
    have hnot : ¬ ((str.length : Int) ≤ maxLen) := by omega
    have htr : truncate str maxLen = jsSlice str 0 (maxLen - 3) ++ utf16 "..." := by
      simp [truncate, hne, hnot]
    rw [htr]
    refine ⟨List.suffix_append _ _, ?_⟩
    rw [List.length_append, utf16_dots_length]
    have hs := jsSlice_length str 0 (maxLen - 3)
    have h0 : ¬ ((0 : Int) < 0) := by omega
    have h1 : ¬ (maxLen - 3 < 0) := by omega
    simp only [h0, h1, if_false] at hs
    push_cast
    omega
  refine ⟨?_, ?_, hlong⟩
  · intro h
    simp [truncate, h]
  · intro h3
    by_cases hle : (str.length : Int) ≤ maxLen
    · have : truncate str maxLen = str := by simp [truncate, hle]
      rw [this]
      exact hle
    · exact le_of_eq (hlong h3 (by omega)).2

/-- C22: evaluation of the call in the documented example.  The call
`truncate("A very long recipe description...", 30)` returns the first 27 code
units of the input followed by "...", 30 code units in all; the text shown in
the comment of `truncate` has 32 code units and is not what is returned. -/
theorem truncate_documented_example :
    truncate (utf16 "A very long recipe description...") 30 =
      utf16 "A very long recipe descript..." ∧
    (truncate (utf16 "A very long recipe description...") 30).length = 30 ∧
    (utf16 "A very long recipe descriptio...").length = 32 ∧
    truncate (utf16 "A very long recipe description...") 30 ≠
      utf16 "A very long recipe descriptio..." := by
  decide

/-! ## Slugs -/

theorem ofNat_add32_toNat :
    ∀ n, n ≤ 90 → 65 ≤ n → (Char.ofNat (n + 32)).toNat = n + 32 := by
  decide

theorem toLower_toNat (d : Char) :
    (Char.toLower d).toNat =
      if 65 ≤ d.toNat ∧ d.toNat ≤ 90 then d.toNat + 32 else d.toNat := by
  unfold Char.toLower
  simp only [ge_iff_le]
  split_ifs with h
  · exact ofNat_add32_toNat _ h.2 h.1
  · rfl

theorem toLower_not_upper (d : Char) :
    ¬ ('A' ≤ Char.toLower d ∧ Char.toLower d ≤ 'Z') := by
  intro h
  have h1 : (65 : Nat) ≤ (Char.toLower d).toNat := h.1
  have h2 : (Char.toLower d).toNat ≤ 90 := h.2
  rw [toLower_toNat] at h1 h2
  split_ifs at h1 h2 with hc
  · omega
  · exact hc ⟨h1, h2⟩

theorem mem_jsTrim (s : String) (c : Char) (h : c ∈ (jsTrim s).data) : c ∈ s.data := by
  unfold jsTrim at h
  simp only [List.mem_reverse] at h
  exact (List.dropWhile_suffix _).subset ((List.dropWhile_suffix _).subset h |> List.mem_reverse.1)

theorem mem_collapseSeparators (b : Bool) (l : List Char) (c : Char)
    (h : c ∈ collapseSeparators b l) :
    c = '-' ∨ (c ∈ l ∧ isSlugSeparator c = false) := by
  induction l generalizing b with
  | nil => simp [collapseSeparators] at h
  | cons x xs ih =>
    unfold collapseSeparators at h
    by_cases hx : isSlugSeparator x = true
    · simp only [hx, if_true] at h
      cases b with
      | true =>
        simp only [if_true] at h
        rcases ih true h with h1 | h1
        · exact Or.inl h1
        · exact Or.inr ⟨List.mem_cons_of_mem _ h1.1, h1.2⟩
      | false =>
        simp only [Bool.false_eq_true, if_false, List.mem_cons] at h
        rcases h with h1 | h1
        · exact Or.inl h1
        · rcases ih true h1 with h2 | h2
          · exact Or.inl h2
          · exact Or.inr ⟨List.mem_cons_of_mem _ h2.1, h2.2⟩
    · have hx' : isSlugSeparator x = false := by simpa using hx
      simp only [hx', Bool.false_eq_true, if_false, List.mem_cons] at h
      rcases h with h1 | h1
      · subst h1
        exact Or.inr ⟨List.mem_cons_self _ _, hx'⟩
      · rcases ih false h1 with h2 | h2
        · exact Or.inl h2
        · exact Or.inr ⟨List.mem_cons_of_mem _ h2.1, h2.2⟩

theorem collapseSeparators_chain (l : List Char) :
    ∀ b, List.Chain' (fun x y => ¬ (x = '-' ∧ y = '-')) (collapseSeparators b l) ∧
      (collapseSeparators true l).head? ≠ some '-' := by
  have hsep : isSlugSeparator '-' = true := by decide
  induction l with
  | nil =>
    intro b
    simp [collapseSeparators]
  | cons x xs ih =>
    intro b
    have htrue : (collapseSeparators true (x :: xs)).head? ≠ some '-' := by
      unfold collapseSeparators
      by_cases hx : isSlugSeparator x = true
      · simp only [hx, if_true]
        exact (ih true).2
      · have hx' : isSlugSeparator x = false := by simpa using hx
        simp only [hx', Bool.false_eq_true, if_false, List.head?_cons, ne_eq,
          Option.some.injEq]
        intro hc
        rw [hc, hsep] at hx'
        cases hx'
    refine ⟨?_, htrue⟩
    unfold collapseSeparators
    by_cases hx : isSlugSeparator x = true
    · simp only [hx, if_true]
      cases b with
      | true =>
        simp only [if_true]
        exact (ih true).1
      | false =>
        simp only [Bool.false_eq_true, if_false]
        rw [List.chain'_cons']
        refine ⟨?_, (ih true).1⟩
        intro y hy hc
        apply (ih true).2
        rw [Option.mem_def.1 hy, hc.2]
    · have hx' : isSlugSeparator x = false := by simpa using hx
      simp only [hx', Bool.false_eq_true, if_false]
      rw [List.chain'_cons']
      refine ⟨?_, (ih false).1⟩
      intro y _ hc
      rw [hc.1, hsep] at hx'
      cases hx'

theorem stripHyphens_within (l : List Char) : stripHyphens l <:+: l := by
  unfold stripHyphens
  obtain ⟨t, ht⟩ := List.rdropWhile_prefix (fun c => c == '-') (l.dropWhile (fun c => c == '-'))
  obtain ⟨u, hu⟩ := List.dropWhile_suffix (fun c => c == '-') (l := l)
  exact ⟨u, t, by rw [List.append_assoc, ht, hu]⟩

theorem stripHyphens_head (l : List Char) : (stripHyphens l).head? ≠ some '-' := by
  unfold stripHyphens
  obtain ⟨t, ht⟩ := List.rdropWhile_prefix (fun c => c == '-') (l.dropWhile (fun c => c == '-'))
  have hnot := List.head?_dropWhile_not (fun c => c == '-') l
  cases hr : List.rdropWhile (fun c => c == '-') (l.dropWhile (fun c => c == '-')) with
  | nil => simp
  | cons x r =>
    rw [hr] at ht
    rw [← ht] at hnot
    simp only [List.cons_append, List.head?_cons] at hnot
    simp only [List.head?_cons, ne_eq, Option.some.injEq]
    intro hx
    rw [hx] at hnot
    simp at hnot

theorem stripHyphens_getLast (l : List Char) : (stripHyphens l).getLast? ≠ some '-' := by
  unfold stripHyphens
  intro h
  have hne : List.rdropWhile (fun c => c == '-') (l.dropWhile (fun c => c == '-')) ≠ [] := by
    intro hnil
    rw [hnil] at h
    simp at h
  have hlast := List.rdropWhile_last_not (fun c => c == '-')
    (l.dropWhile (fun c => c == '-')) hne
  rw [List.getLast?_eq_getLast _ hne] at h
  have := Option.some.inj h
  rw [this] at hlast
  simp at hlast

/-- C23: `slugify(s)` consists only of lower-case letters `a`-`z`, digits
`0`-`9` and hyphens, neither starts nor ends with a hyphen, and never holds two
hyphens in a row; and `slugify("Dal Bhat Tarkari!")` is "dal-bhat-tarkari". -/
theorem slugify_url_friendly (s : String) :
    (∀ c ∈ (slugify s).data, ('a' ≤ c ∧ c ≤ 'z') ∨ ('0' ≤ c ∧ c ≤ '9') ∨ c = '-') ∧
    (slugify s).data.head? ≠ some '-' ∧
    (slugify s).data.getLast? ≠ some '-' ∧
    ¬ (['-', '-'] <:+: (slugify s).data) ∧
    slugify "Dal Bhat Tarkari!" = "dal-bhat-tarkari" := by
  refine ⟨?_, stripHyphens_head _, stripHyphens_getLast _, ?_, by decide⟩
  · intro c hc
    have h1 := (stripHyphens_within _).subset hc
    rcases mem_collapseSeparators _ _ _ h1 with h2 | ⟨h2, h3⟩
    · exact Or.inr (Or.inr h2)
    · rw [List.mem_filter] at h2
      obtain ⟨hmem, hkeep⟩ := h2
      have hlow := mem_jsTrim _ _ hmem
      simp only [toLowerCase, List.mem_map] at hlow
      obtain ⟨d, _, hd⟩ := hlow
      have hup := toLower_not_upper d
      rw [hd] at hup
      simp only [isSlugSeparator, Bool.or_eq_false_iff, beq_eq_false_iff_ne] at h3
      obtain ⟨⟨hsp, hus⟩, hhy⟩ := h3
      simp only [hsp, Bool.or_false, Bool.or_eq_true, beq_iff_eq] at hkeep
      rcases hkeep with hw | hw
      · simp only [isWordChar, Bool.or_eq_true, Bool.and_eq_true, decide_eq_true_eq,
          beq_iff_eq] at hw
        rcases hw with ((hw | hw) | hw) | hw
        · exact Or.inl hw
        · exact absurd hw hup
        · exact Or.inr (Or.inl hw)
        · exact absurd hw hus
      · exact absurd hw hhy
  · intro hinf
    have hchain := List.Chain'.infix (collapseSeparators_chain _ false).1
      (hinf.trans (stripHyphens_within _))
    rw [List.chain'_cons'] at hchain
    exact hchain.1 '-' (by simp) ⟨rfl, rfl⟩

/-! ## Star ratings -/

theorem starClass_eq (r : ℚ) (i : Int) :
    starClass r i =
      if i ≤ ⌊r⌋ then .filled
      else if i = ⌊r⌋ + 1 ∧ 1 / 2 ≤ Int.fract r then .half
      else .empty := by
  unfold starClass
  by_cases h1 : i ≤ ⌊r⌋
  · simp [h1]
  · simp only [h1, if_false]
    have hfr : r = (⌊r⌋ : ℚ) + Int.fract r := (Int.floor_add_fract r).symm
    have hlt := Int.fract_lt_one r
    by_cases h2 : i = ⌊r⌋ + 1
    · have hc : (i : ℚ) = (⌊r⌋ : ℚ) + 1 := by
        rw [h2]
        push_cast
        rfl
      by_cases h3 : 1 / 2 ≤ Int.fract r
      · have : (i : ℚ) - 1 / 2 ≤ r := by linarith
        rw [if_pos this, if_pos ⟨h2, h3⟩]
      · have : ¬ ((i : ℚ) - 1 / 2 ≤ r) := by
          intro hle
          apply h3
          linarith
        simp only [this, if_false]
        rw [if_neg]
        exact fun h => h3 h.2
    · have hge : ⌊r⌋ + 2 ≤ i := by omega
      have hc : (⌊r⌋ : ℚ) + 2 ≤ (i : ℚ) := by exact_mod_cast hge
      have : ¬ ((i : ℚ) - 1 / 2 ≤ r) := by
        intro hle
        linarith
      simp only [this, if_false]
      rw [if_neg]
      exact fun h => h2 h.1

/-- C24: for a rating `0 <= r <= 5`, `renderStars(r)` writes the five stars
`1..5` in order; the first `floor(r)` are filled, the next one (if there is
one) is half exactly when the fractional part of `r` is at least 0.5 and empty
otherwise, the remaining ones are empty, and at most one star is half.  For
4.5 the stars are four filled and one half. -/
theorem renderStars_spec (r : ℚ) (h0 : 0 ≤ r) (h5 : r ≤ 5) :
    (renderStars r).map Prod.fst = [1, 2, 3, 4, 5] ∧
    (renderStars r).map Prod.snd =
      List.replicate ⌊r⌋.toNat StarClass.filled ++
        (if ⌊r⌋ < 5 then
          (if 1 / 2 ≤ Int.fract r then StarClass.half else StarClass.empty) ::
            List.replicate (4 - ⌊r⌋.toNat) StarClass.empty
        else []) ∧
    ((renderStars r).map Prod.snd).count StarClass.half ≤ 1 ∧
    renderStars (9 / 2) =
      [(1, .filled), (2, .filled), (3, .filled), (4, .filled), (5, .half)] := by
  have hlo : 0 ≤ ⌊r⌋ := Int.floor_nonneg.2 h0
  have hhi : ⌊r⌋ ≤ 5 := by
    have := Int.floor_le_floor h5
    simpa using this
  have hsnd : (renderStars r).map Prod.snd =
      List.replicate ⌊r⌋.toNat StarClass.filled ++
        (if ⌊r⌋ < 5 then
          (if 1 / 2 ≤ Int.fract r then StarClass.half else StarClass.empty) ::
            List.replicate (4 - ⌊r⌋.toNat) StarClass.empty
        else []) := by
    simp only [renderStars, starClass_eq, List.map_map]
    generalize ⌊r⌋ = k at hlo hhi
    interval_cases k <;> by_cases hf : 1 / 2 ≤ Int.fract r <;>
      simp [List.range_succ, hf, List.replicate]
  refine ⟨?_, hsnd, ?_, ?_⟩
  · simp [renderStars, List.range_succ]
  · rw [hsnd]
    generalize ⌊r⌋ = k at hlo hhi
    interval_cases k <;> simp [List.replicate] <;> split_ifs <;> simp
  · have hf : ⌊(9 / 2 : ℚ)⌋ = 4 := by
      rw [Int.floor_eq_iff]
      norm_num
    have hfr : Int.fract (9 / 2 : ℚ) = 1 / 2 := by
      rw [Int.fract, hf]
      norm_num
    simp [renderStars, starClass_eq, hf, hfr, List.range_succ]

/-- Witness for C24 at the rating 4.7 of "Spaghetti Carbonara". -/
theorem renderStars_spec_witness :
    (renderStars recipe2.rating).map Prod.fst = [1, 2, 3, 4, 5] :=
  (renderStars_spec recipe2.rating (by norm_num [recipe2]) (by norm_num [recipe2])).1

/-! ## Bookmarks -/

theorem mem_toSet (l : List Int) (x : Int) : x ∈ toSet l ↔ x ∈ l := by
  simp [toSet]

theorem nodup_toSet (l : List Int) : (toSet l).Nodup := by
  unfold toSet
  exact List.nodup_reverse.2 (List.nodup_dedup _)

theorem nodup_getBookmarks (store : BookmarkStore) : (getBookmarks store).Nodup := by
  cases store with
  | none => exact List.nodup_nil
  | some ids => exact nodup_toSet ids

theorem mem_getBookmarks_toggle (store : BookmarkStore) (id x : Int) :
    x ∈ getBookmarks (toggleBookmark store id).2 ↔
      (if id ∈ getBookmarks store then x ≠ id ∧ x ∈ getBookmarks store
        else x ∈ getBookmarks store ∨ x = id) := by
  have hnd := nodup_getBookmarks store
  simp only [toggleBookmark, getBookmarks, mem_toSet]
  split_ifs with h
  · exact hnd.mem_erase_iff
  · simp

theorem mem_toggle_self (store : BookmarkStore) (id : Int) :
    id ∈ getBookmarks (toggleBookmark store id).2 ↔ id ∉ getBookmarks store := by
  rw [mem_getBookmarks_toggle]
  split_ifs with h
  · simp [h]
  · simp [h]

theorem mem_toggle_other (store : BookmarkStore) (id other : Int) (hne : other ≠ id) :
    other ∈ getBookmarks (toggleBookmark store id).2 ↔ other ∈ getBookmarks store := by
  rw [mem_getBookmarks_toggle]
  split_ifs with h
  · simp [hne]
  · simp [hne]

/-- C25: `toggleBookmark(id)` returns `true` exactly when `id` was not
bookmarked before the call; after the call the membership of `id` in
`getBookmarks()` is flipped and that of every other id is unchanged; two calls
with the same id restore the set of bookmarked ids. -/
theorem toggleBookmark_spec (store : BookmarkStore) (id : Int) :
    ((toggleBookmark store id).1 = true ↔ id ∉ getBookmarks store) ∧
    (id ∈ getBookmarks (toggleBookmark store id).2 ↔ id ∉ getBookmarks store) ∧
    (∀ other, other ≠ id →
      (other ∈ getBookmarks (toggleBookmark store id).2 ↔ other ∈ getBookmarks store)) ∧
    (∀ x, x ∈ getBookmarks (toggleBookmark (toggleBookmark store id).2 id).2 ↔
      x ∈ getBookmarks store) := by
  refine ⟨?_, mem_toggle_self store id, fun other hne => mem_toggle_other store id other hne, ?_⟩
  · have hnd := nodup_getBookmarks store
    simp only [toggleBookmark, decide_eq_true_eq]
    split_ifs with h
    · simp [hnd.mem_erase_iff, h]
    · simp [h]
  · intro x
    by_cases hx : x = id
    · subst hx
      rw [mem_toggle_self, mem_toggle_self, not_not]
    · rw [mem_toggle_other _ _ _ hx, mem_toggle_other _ _ _ hx]

/-- Witness for C25: adding the bookmark 2 to the stored ids 1 and 3 leaves 3
bookmarked. -/
theorem toggleBookmark_spec_witness :
    (3 : Int) ∈ getBookmarks (toggleBookmark (some [1, 3]) 2).2 ↔
      (3 : Int) ∈ getBookmarks (some [1, 3]) :=
  (toggleBookmark_spec (some [1, 3]) 2).2.2.1 3 (by decide)

/-! ## Pagination controls -/

theorem mem_pageLoop (pages page : Int) (item : PageItem) (h : item ∈ pageLoop pages page) :
    ∃ i : Int, 1 ≤ i ∧ i ≤ pages ∧ item ∈ pageLoopBody pages page i := by
  unfold pageLoop at h
  rw [List.mem_flatMap] at h
  obtain ⟨k, hk, hitem⟩ := h
  rw [List.mem_range] at hk
  exact ⟨(k : Int) + 1, by omega, by omega, hitem⟩

theorem pageLoop_mem (pages page i : Int) (item : PageItem) (h1 : 1 ≤ i) (h2 : i ≤ pages)
    (h : item ∈ pageLoopBody pages page i) : item ∈ pageLoop pages page := by
  unfold pageLoop
  rw [List.mem_flatMap]
  refine ⟨(i - 1).toNat, ?_, ?_⟩
  · rw [List.mem_range]
    omega
  · have e : (((i - 1).toNat : Nat) : Int) + 1 = i := by omega
    rw [e]
    exact h

theorem button_mem_pageLoop_range (pages page i : Int) (active : Bool)
    (h : PageItem.button i active ∈ pageLoop pages page) : 1 ≤ i ∧ i ≤ pages := by
  obtain ⟨j, h1, h2, hj⟩ := mem_pageLoop pages page _ h
  unfold pageLoopBody at hj
  split_ifs at hj
  · simp at hj
  · simp at hj
  · simp only [List.mem_singleton, PageItem.button.injEq] at hj
    rw [hj.1]
    exact ⟨h1, h2⟩

/-- The page-number loop writes the buttons 1, 2, `pages - 1`, `pages`, the
current page and its neighbours, whenever these numbers are pages. -/
theorem pageLoop_buttons (pages page i : Int) (h1 : 1 ≤ i) (h2 : i ≤ pages)
    (h : i ≤ 2 ∨ pages - 1 ≤ i ∨ |i - page| ≤ 1) :
    PageItem.button i (decide (i = page)) ∈ pageLoop pages page := by
  apply pageLoop_mem pages page i _ h1 h2
  unfold pageLoopBody
  rw [if_neg]
  · simp
  · rintro ⟨_, h3, h4, h5⟩
    rcases h with h | h | h <;> omega

theorem handlePage_range (pages : Int) (s : State) (e : PageEvent)
    (hs : 1 ≤ s.page ∧ s.page ≤ pages) (he : rendered pages s e) :
    1 ≤ (handlePage pages s e).page ∧ (handlePage pages s e).page ≤ pages := by
  cases e with
  | pageButton i =>
    obtain ⟨active, hmem⟩ := he
    exact button_mem_pageLoop_range pages s.page i active hmem
  | prev =>
    simp only [handlePage]
    split_ifs with h
    · show 1 ≤ s.page - 1 ∧ s.page - 1 ≤ pages
      omega
    · exact hs
  | next =>
    simp only [handlePage]
    split_ifs with h
    · show 1 ≤ s.page + 1 ∧ s.page + 1 ≤ pages
      omega
    · exact hs

theorem clicks_range (pages : Int) (s t : State) (es : List PageEvent)
    (hs : 1 ≤ s.page ∧ s.page ≤ pages) (hrun : clicks pages s es t) :
    1 ≤ t.page ∧ t.page ≤ pages := by
  induction es generalizing s with
  | nil =>
    have : t = s := hrun
    rw [this]
    exact hs
  | cons e es ih =>
    obtain ⟨he, hrest⟩ := hrun
    exact ih (handlePage pages s e) (handlePage_range pages s e hs he) hrest

/-- C26: pagination clicks keep the page in range.  With
`pages = ceil(total / perPage) > 1` and `state.page` in `[1, pages]`, after any
sequence of clicks on rendered page buttons, previous and next, `state.page` is
in `[1, pages]`; previous at page 1 and next at page `pages` change nothing.
The controls are rendered, and the handlers bound, because `pages > 1`. -/
theorem clicks_page_in_range (total : Nat) (s t : State) (es : List PageEvent)
    (hp : 1 < pageCount total s.perPage)
    (hs : 1 ≤ s.page ∧ s.page ≤ pageCount total s.perPage)
    (hrun : clicks (pageCount total s.perPage) s es t) :
    paginationRendered total s.perPage = true ∧
    (1 ≤ t.page ∧ t.page ≤ pageCount total s.perPage) ∧
    (s.page = 1 → handlePage (pageCount total s.perPage) s .prev = s) ∧
    (s.page = pageCount total s.perPage →
      handlePage (pageCount total s.perPage) s .next = s) := by
  refine ⟨?_, clicks_range _ s t es hs hrun, ?_, ?_⟩
  · unfold paginationRendered
    simp only [Bool.not_eq_true', decide_eq_false_iff_not, not_le]
    exact hp
  · intro h1
    simp [handlePage, h1]
  · intro h1
    simp [handlePage, h1]

/-- Witness for C26: 20 results in pages of 9 make 3 pages; from page 1 the
clicks next, button 3, next, previous lead to page 2. -/
theorem clicks_page_in_range_witness :
    1 ≤ ({ initialState with page := 2 } : State).page ∧
      ({ initialState with page := 2 } : State).page ≤ pageCount 20 initialState.perPage := by
  have h20 : pageCount 20 initialState.perPage = 3 := by
    unfold pageCount
    rw [Int.ceil_eq_iff]
    norm_num [initialState]
  exact (clicks_page_in_range 20 initialState { initialState with page := 2 }
    [.next, .pageButton 3, .next, .prev]
    (by rw [h20]; decide) (by rw [h20]; decide)
    (by
      rw [h20]
      exact ⟨trivial, ⟨false, by decide⟩, trivial, trivial, rfl⟩)).2.1

/-- C29: evaluation of the page-number loop for 10 pages on page 1.  The
pages 3 to 8 are left out in one run, and the loop writes an ellipsis at
`i = 3` and another at `i = pages - 2 = 8`: two for the same gap. -/
theorem pageLoop_double_ellipsis :
    pageLoop 10 1 =
      [.button 1 true, .button 2 false, .dots, .dots, .button 9 false, .button 10 false] ∧
    (pageLoop 10 1).count PageItem.dots = 2 ∧
    pageLoop 10 10 =
      [.button 1 false, .button 2 false, .dots, .dots, .button 9 false, .button 10 true] := by
  decide

/-! ## Removing a filter tag -/

/-- Removing the tag of one of the four filters gives the list the filter
gives with that filter unset. -/
theorem removeTag_filter (L : JsLower) (RECIPES : List Recipe) (s : State) (key : FilterKey) :
    getFilteredRecipes L RECIPES (handle s (.removeTag (.filter key))) =
      getFilteredRecipes L RECIPES (setFilter s key "") := by
  cases key <;> rfl

theorem getFilteredRecipes_initial (L : JsLower) :
    getFilteredRecipes L RECIPES initialState = RECIPES := by
  unfold getFilteredRecipes
  rw [lower_initial_query, List.filter_eq_self]
  intro r hr
  simp only [RECIPES, List.mem_cons, List.mem_singleton, List.not_mem_nil, or_false] at hr
  rcases hr with h | h | h | h | h | h | h | h <;> subst h <;> rfl

/-- C27: evaluation at the `maxTime` tag.  With the bound at 60 the tag
"Under 60min" is shown; its click handler stores the empty string in
`state.maxTime`, every shipped recipe then fails the time guard and the
listing is empty, where the default bound 180 lists all eight recipes. -/
theorem removeTag_maxTime_counterexample (L : JsLower) :
    getFilteredRecipes L RECIPES
      (handle { initialState with maxTime := 60 } (.removeTag .maxTime)) = [] ∧
    getFilteredRecipes L RECIPES { initialState with maxTime := 180 } = RECIPES ∧
    RECIPES ≠ [] := by
  refine ⟨?_, getFilteredRecipes_initial L, by simp [RECIPES]⟩
  unfold getFilteredRecipes
  have hq : L.lower (handle { initialState with maxTime := 60 } (.removeTag .maxTime)).query
      = "" := (L.lower_eq_empty _).2 rfl
  rw [hq, List.filter_eq_nil_iff]
  intro r hr
  simp only [RECIPES, List.mem_cons, List.mem_singleton, List.not_mem_nil, or_false] at hr
  rcases hr with h | h | h | h | h | h | h | h <;> subst h <;> simp <;> rfl

/-! ## The sort keys of the listing page -/

/-- C28: with `state.sort = "rating"` the list returned by `sortRecipes` has
non-increasing rating, and with `state.sort = "popular"` it has non-increasing
reviewCount. -/
theorem sortRecipes_rating_popular (state : State) (l : List Recipe) :
    (∃ out, sortRecipes { state with sort := "rating" } l = .ok out ∧
      (out.map (fun r => r.rating)).Sorted (fun x y => x ≥ y)) ∧
    (∃ out, sortRecipes { state with sort := "popular" } l = .ok out ∧
      (out.map (fun r => r.reviewCount)).Sorted (fun m n => m ≥ n)) := by
  refine ⟨⟨_, sortRecipes_of_compareFn _ l _ comparatorFor_rating, ?_⟩,
    ⟨_, sortRecipes_of_compareFn _ l _ comparatorFor_popular, ?_⟩⟩
  · rw [List.Sorted, List.pairwise_map]
    apply stableSort_pairwise
    · intro a b
      exact sub_nonpos
    · intro a b
      exact le_total b.rating a.rating
    · intro a b c hab hbc
      exact le_trans hbc hab
  · rw [List.Sorted, List.pairwise_map]
    apply stableSort_pairwise
    · intro a b
      rw [sub_nonpos]
      exact Nat.cast_le
    · intro a b
      exact le_total b.reviewCount a.reviewCount
    · intro a b c hab hbc
      exact le_trans hbc hab

end RecipeHub
